import Mathlib

/-!
Verification development for the "Ants vs. SomeBees" game engine
(`src/ants/ants.py`).

The Python code is shallowly embedded: places, ants and bees become Lean
structures, the colony's mutable state becomes a `Colony` record threaded
through explicit state-passing functions, and object identity is modelled
by numeric ids (each Python object is created with a fresh id, and the
source's `is` / default `==` comparisons become id comparisons).
Exceptions (`KeyError`, `AssertionError`, `ValueError`) become explicit
error values; `print` calls have no state effect and are dropped.
`random.choice` becomes an explicit `pick : Nat` index parameter, so that
every random choice is quantified over.
-/

namespace Ants

/-- The error taxonomy of the spec, standing for the Python failure modes:
`insufficientFood` for the rejected-deploy branch, `unknownVariant` /
`unknownLocation` for `KeyError` on the registries, `occupancyConflict`
for the `assert` in `Place.add_insect`, and `notPresent` for the `assert`
in `Place.remove_insect` (and `list.remove`'s `ValueError` for bees). -/
inductive Err where
  | insufficientFood
  | unknownVariant
  | unknownLocation
  | occupancyConflict
  | notPresent
deriving DecidableEq, Repr

/-- The Ant subclasses of `ants.py` (every class reachable from `Ant` by
`__subclasses__`, i.e. the candidates scanned by `ant_types`). -/
inductive AntKind where
  | harvester
  | thrower
  | fire
  | wall
  | ninja
  | hungry
  | bodyguard
  | remover
  | long
  | short
  | scuba
  | slow
  | stun
  | queen
deriving DecidableEq, Repr

/-- `name` class attribute of each Ant class. -/
def antName : AntKind → String
  | .harvester => "Harvester"
  | .thrower => "Thrower"
  | .fire => "Fire"
  | .wall => "Wall"
  | .ninja => "Ninja"
  | .hungry => "Hungry"
  | .bodyguard => "Bodyguard"
  | .remover => "Remover"
  | .long => "Long"
  | .short => "Short"
  | .scuba => "Scuba"
  | .slow => "Slow"
  | .stun => "Stun"
  | .queen => "Queen"

/-- `food_cost` class attribute (inherited from `Ant`/`ThrowerAnt` where a
class does not override it: `Remover` inherits 0, `Slow`/`Stun` inherit
`ThrowerAnt`'s 4). -/
def foodCost : AntKind → Nat
  | .harvester => 2
  | .thrower => 4
  | .fire => 4
  | .wall => 4
  | .ninja => 6
  | .hungry => 4
  | .bodyguard => 4
  | .remover => 0
  | .long => 3
  | .short => 3
  | .scuba => 5
  | .slow => 4
  | .stun => 4
  | .queen => 6

/-- `implemented` class attribute. -/
def implementedFlag : AntKind → Bool
  | .harvester => true
  | .thrower => true
  | .fire => true
  | .wall => true
  | .ninja => true
  | .hungry => false
  | .bodyguard => true
  | .remover => true
  | .long => true
  | .short => true
  | .scuba => true
  | .slow => false
  | .stun => false
  | .queen => false

/-- `container` class attribute (`BodyguardAnt` only). -/
def isContainer : AntKind → Bool
  | .bodyguard => true
  | _ => false

/-- `blocks_path` class attribute (`NinjaAnt` is the only `False`). -/
def blocksPath : AntKind → Bool
  | .ninja => false
  | _ => true

/-- `damage` class attribute (`ThrowerAnt` family 1, `FireAnt` 3,
`NinjaAnt` 1, otherwise `Ant`'s 0). -/
def baseDamage : AntKind → Int
  | .thrower => 1
  | .fire => 3
  | .ninja => 1
  | .long => 1
  | .short => 1
  | .scuba => 1
  | .slow => 1
  | .stun => 1
  | .queen => 1
  | _ => 0

/-- Armor passed to `Ant.__init__` by each constructor (`WallAnt` 4,
`BodyguardAnt` 2, `AntRemover` 0, the default 1 otherwise). -/
def initialArmor : AntKind → Int
  | .wall => 4
  | .bodyguard => 2
  | .remover => 0
  | _ => 1

/-- `watersafe` class attribute (`ScubaThrower` and its subclass
`QueenAnt`; `Bee.watersafe` is `True` and is kept implicit for bees). -/
def watersafeAnt : AntKind → Bool
  | .scuba => true
  | .queen => true
  | _ => false

/-- The mutable per-object state of one Ant: its identity, class, `armor`,
`damage`, and the `QueenAnt`-specific `instance_num` and `doubled_ants`
(the latter stored as the list of ids of the ants already doubled, since
Python's `in` on `doubled_ants` compares object identity). -/
structure AntData where
  id : Nat
  kind : AntKind
  armor : Int
  damage : Int
  instanceNum : Nat
  doubled : List Nat
deriving DecidableEq, Repr

/-- An Ant as held in a Place's slot: its own data plus the optional
contained ant (`BodyguardAnt.ant`).  `can_contain` forbids containing a
container, so containment is one level deep and the contained ant is a
plain `AntData`. -/
structure AntObj where
  data : AntData
  contained : Option AntData
deriving DecidableEq, Repr

/-- A Bee: identity plus `armor`. -/
structure Bee where
  id : Nat
  armor : Int
deriving DecidableEq, Repr

/-- Place names.  The Python code uses format strings
(`'tunnel_{0}_{1}'.format(tunnel, step)` etc.); distinct arguments give
distinct strings, which the constructors model injectively. -/
inductive PName where
  | hive
  | antQueen
  | tunnel (t s : Nat)
  | water (t s : Nat)
deriving DecidableEq, Repr

/-- One `Place` object: `name`, `exit`, `entrance` (references to other
places are arena indices), the `bees` list and the `ant` slot. -/
structure PlaceObj where
  pname : PName
  exit : Option Nat
  entrance : Option Nat
  bees : List Bee
  ant : Option AntObj
deriving DecidableEq, Repr

/-! ### Arena helpers -/

def getPlace (ar : List PlaceObj) (i : Nat) : Option PlaceObj := ar.get? i

def setPlace (ar : List PlaceObj) (i : Nat) (p : PlaceObj) : List PlaceObj := ar.set i p

def modifyPlace (ar : List PlaceObj) (i : Nat) (f : PlaceObj → PlaceObj) : List PlaceObj :=
  match ar.get? i with
  | some p => ar.set i (f p)
  | none => ar

/-- Association-list lookup, modelling Python `dict` subscripting. -/
def lookupKey {κ α : Type} [DecidableEq κ] (l : List (κ × α)) (k : κ) : Option α :=
  match l with
  | [] => none
  | (k', v) :: rest => if k' = k then some v else lookupKey rest k

/-- `OrderedDict` assignment `d[k] = v`: overwrite in place if the key
exists (order preserved), else append. -/
def dictInsert {κ α : Type} [DecidableEq κ] (l : List (κ × α)) (k : κ) (v : α) :
    List (κ × α) :=
  match l with
  | [] => [(k, v)]
  | (k', v') :: rest =>
    if k' = k then (k, v) :: rest else (k', v') :: dictInsert rest k v

/-! ### `Place.__init__` (lines 20-34)

Creating a `Place` appends a fresh place (exit as given, entrance `None`,
empty occupants) and, when the exit is non-`None`, assigns
`exit.entrance = self`. -/

def place_init (ar : List PlaceObj) (name : PName) (exitId : Option Nat) :
    List PlaceObj × Nat :=
  let pid := ar.length
  let ar' := ar ++ [{ pname := name, exit := exitId, entrance := none,
                      bees := [], ant := none }]
  match exitId with
  | some e => (modifyPlace ar' e (fun p => { p with entrance := some pid }), pid)
  | none => (ar', pid)

/-! ### `Place.add_insect` / `Place.remove_insect` (lines 37-80) -/

/-- `Ant.can_contain` (line 175): container, empty, and the other is not a
container. -/
def can_contain (a other : AntObj) : Bool :=
  isContainer a.data.kind && a.contained == none && !(isContainer other.data.kind)

/-- `Place.add_insect` for an ant.  The final `else` branch's
`assert self.ant is None` always fails there (the slot is occupied), which
is the `OccupancyConflict` error.  `contain_ant` stores the other ant's
data (the other is never a container by `can_contain`). -/
def add_insect_ant (p : PlaceObj) (a : AntObj) : Except Err PlaceObj :=
  match p.ant with
  | none => Except.ok { p with ant := some a }
  | some b =>
    if can_contain b a then
      Except.ok { p with ant := some { b with contained := some a.data } }
    else if can_contain a b then
      Except.ok { p with ant := some { a with contained := some b.data } }
    else Except.error Err.occupancyConflict

/-- `Place.add_insect` for a bee: append to `self.bees`. -/
def add_insect_bee (p : PlaceObj) (b : Bee) : PlaceObj :=
  { p with bees := p.bees ++ [b] }

/-- `Place.remove_insect` for an ant, identified by id.  Mirrors lines
65-80: the `assert self.ant == insect` is the `notPresent` error; a
`QueenAnt` with `instance_num == 0` returns early (no removal); a
container with a contained ant promotes it to the slot; otherwise the slot
is cleared. -/
def remove_insect_ant (p : PlaceObj) (aid : Nat) : Except Err PlaceObj :=
  match p.ant with
  | none => Except.error Err.notPresent
  | some b =>
    if b.data.id = aid then
      if b.data.kind = AntKind.queen ∧ b.data.instanceNum = 0 then
        Except.ok p
      else if isContainer b.data.kind ∧ b.contained ≠ none then
        match b.contained with
        | some c => Except.ok { p with ant := some { data := c, contained := none } }
        | none => Except.ok { p with ant := none }
      else Except.ok { p with ant := none }
    else Except.error Err.notPresent

/-- `Place.remove_insect` for a bee: `self.bees.remove(insect)`, a
`ValueError` (here `notPresent`) when the bee is absent. -/
def remove_insect_bee (p : PlaceObj) (bid : Nat) : Except Err PlaceObj :=
  if p.bees.any (fun b => b.id == bid) then
    Except.ok { p with bees := p.bees.eraseP (fun b => b.id == bid) }
  else Except.error Err.notPresent

/-! ### `Insect.reduce_armor` (lines 95-107)

`self.armor -= amount; if self.armor <= 0: self.place.remove_insect(self)`.
The slot variant applies it to the place's visible slot occupant; the
contained variant applies it to the ant held inside the slot occupant, in
which case `remove_insect`'s `assert self.ant == insect` compares the slot
occupant against the (distinct) contained object and fails, leaving the
armor mutation in place. -/

def reduce_armor_slot (p : PlaceObj) (amount : Int) : Except Err PlaceObj :=
  match p.ant with
  | none => Except.error Err.notPresent
  | some b =>
    if b.data.armor - amount ≤ 0 then
      remove_insect_ant { p with ant := some { b with
        data := { b.data with armor := b.data.armor - amount } } } b.data.id
    else Except.ok { p with ant := some { b with
      data := { b.data with armor := b.data.armor - amount } } }

def reduce_armor_contained (p : PlaceObj) (amount : Int) : PlaceObj × Option Err :=
  match p.ant with
  | none => (p, some Err.notPresent)
  | some b =>
    match b.contained with
    | none => (p, some Err.notPresent)
    | some c =>
      let c' : AntData := { c with armor := c.armor - amount }
      let p' : PlaceObj := { p with ant := some { b with contained := some c' } }
      if c'.armor ≤ 0 then (p', some Err.notPresent) else (p', none)

/-! ### `FireAnt.reduce_armor` (lines 499-508) and dynamic dispatch

`FireAnt` is the only class that overrides `Insect.reduce_armor`: it
decrements its armor and, at 0 or below, iterates over a copy of
`self.place.bees` giving each bee `self.damage` (each bee's own
`reduce_armor` drops it from the live list when its armor reaches 0 or
below), then removes itself through `Place.remove_insect`.  Every other
Ant class inherits `Insect.reduce_armor`. -/

/-- The place's bee list after the expiring Fire Defender cooks it:
every bee's armor drops by `dmg` and the bees brought to 0 or below
leave the list (survivors keep their order and their updated armor). -/
def fire_cook_bees (bees : List Bee) (dmg : Int) : List Bee :=
  (bees.map (fun b => { b with armor := b.armor - dmg })).filter
    (fun b => !decide (b.armor ≤ 0))

/-- `reduce_armor` as Python dispatches it on the slot occupant:
`FireAnt.reduce_armor` for a Fire Defender (cook the bees, then
`remove_insect`), the inherited `Insect.reduce_armor`
(`reduce_armor_slot`) for every other class. -/
def reduce_armor_slot_dispatched (p : PlaceObj) (amount : Int) :
    Except Err PlaceObj :=
  match p.ant with
  | none => Except.error Err.notPresent
  | some b =>
    if b.data.kind = AntKind.fire then
      if b.data.armor - amount ≤ 0 then
        remove_insect_ant { p with
          bees := fire_cook_bees p.bees b.data.damage,
          ant := some { b with
            data := { b.data with armor := b.data.armor - amount } } } b.data.id
      else Except.ok { p with ant := some { b with
        data := { b.data with armor := b.data.armor - amount } } }
    else reduce_armor_slot p amount

/-! ### `ant_types` (lines 350-357)

Runtime subclass discovery: breadth-first over `__subclasses__` starting
from `Ant` (direct subclasses in definition order, then their subclasses,
then `ScubaThrower`'s subclass `QueenAnt`), filtered by `implemented`. -/

def all_ant_classes : List AntKind :=
  [AntKind.harvester, AntKind.thrower, AntKind.fire, AntKind.wall,
   AntKind.ninja, AntKind.hungry, AntKind.bodyguard, AntKind.remover,
   AntKind.long, AntKind.short, AntKind.scuba, AntKind.slow, AntKind.stun,
   AntKind.queen]

def ant_types : List AntKind := all_ant_classes.filter implementedFlag

/-- `OrderedDict((a.name, a) for a in ant_types)` built by
`AntColony.__init__`. -/
def antTypesRegistry : List (String × AntKind) :=
  ant_types.map (fun k => (antName k, k))

/-! ### The colony state (`AntColony`, lines 260-348)

`arena` is the pool of all `Place` objects ever constructed (index =
object identity); `placesReg` is the `self.places` OrderedDict mapping
names to arena indices.  `colony.queen` is either the `'AntQueen'` place
or, after the true `QueenAnt` acts, the `QueenPlace` wrapper over the
original goal and the queen ant's place. -/

inductive QueenRef where
  | place (pid : Nat)
  | queenPlace (colonyQueen antQueen : Nat)
deriving DecidableEq, Repr

structure Colony where
  arena : List PlaceObj
  placesReg : List (PName × Nat)
  antRegistry : List (String × AntKind)
  food : Nat
  time : Nat
  hiveId : Nat
  queenRef : QueenRef
  beeEntrances : List Nat
  nextAntId : Nat
  queenCounter : Nat
deriving DecidableEq, Repr

def slotAnt (s : Colony) (pid : Nat) : Option AntObj :=
  (getPlace s.arena pid).bind (fun p => p.ant)

def placeExit (s : Colony) (pid : Nat) : Option Nat :=
  (getPlace s.arena pid).bind (fun p => p.exit)

def placeEntrance (s : Colony) (pid : Nat) : Option Nat :=
  (getPlace s.arena pid).bind (fun p => p.entrance)

def beesAt (s : Colony) (pid : Nat) : List Bee :=
  ((getPlace s.arena pid).map (fun p => p.bees)).getD []

/-! ### `AntColony.configure` and the layouts (lines 286-297, 405-423)

The `Hive` is constructed first (its `__init__` bypasses
`Place.__init__`: it sets `bees` to the plan's bees and `entrance`, `ant`,
`exit` to `None`).  `configure` then creates the `'AntQueen'` place
(never registered in `self.places`), registers the hive, and runs the
layout, which builds each tunnel from the queen place outward and
registers every new place; the last place of each tunnel is a bee
entrance, whose `entrance` is set to the hive.  `Water.__init__` is
inherited from `Place`, so link wiring is identical for water places
(`moat_frequency` only changes which class, hence `add_insect`, is used;
no claim involves occupying a water place, so all layout places are built
as plain places here). -/

structure ConfigState where
  arena : List PlaceObj
  placesReg : List (PName × Nat)
  beeEntrances : List Nat
  hiveId : Nat
deriving Repr

/-- `register_place` (lines 291-295). -/
def register_place (cs : ConfigState) (pid : Nat) (isBeeEntrance : Bool) :
    ConfigState :=
  let name := ((getPlace cs.arena pid).map (fun p => p.pname)).getD PName.hive
  let cs' := { cs with placesReg := dictInsert cs.placesReg name pid }
  if isBeeEntrance then
    { cs' with
      arena := modifyPlace cs'.arena pid
        (fun p => { p with entrance := some cs'.hiveId }),
      beeEntrances := cs'.beeEntrances ++ [pid] }
  else cs'

/-- The inner `for step in range(length)` loop of `mixed_layout` for one
tunnel, recursing on the number of remaining steps (`remaining = 0` at
the last step, i.e. `step == length - 1`). -/
def buildTunnelSteps (cs : ConfigState) (tunnel exitId step : Nat) :
    Nat → ConfigState
  | 0 => cs
  | remaining + 1 =>
    let (ar, pid) := place_init cs.arena (PName.tunnel tunnel step) (some exitId)
    let cs' := register_place { cs with arena := ar } pid (remaining = 0)
    buildTunnelSteps cs' tunnel pid (step + 1) remaining

/-- The outer `for tunnel in range(tunnels)` loop: each tunnel restarts
from `exit = queen`. -/
def buildTunnels (queenId len : Nat) (cs : ConfigState) (tunnel : Nat) :
    Nat → ConfigState
  | 0 => cs
  | remaining + 1 =>
    let cs' := buildTunnelSteps cs tunnel queenId 0 len
    buildTunnels queenId len cs' (tunnel + 1) remaining

/-- `Hive(assault_plan)` followed by `AntColony.__init__`/`configure` with
`mixed_layout(length, tunnels, moat_frequency = 0)` (the `test_layout` /
`dry_layout` family).  The hive is arena index 0 and the `'AntQueen'`
place is arena index 1. -/
def make_colony (hiveBees : List Bee) (len tunnels food : Nat)
    (antReg : List (String × AntKind)) : Colony :=
  let hive : PlaceObj := { pname := PName.hive, exit := none, entrance := none,
                           bees := hiveBees, ant := none }
  let (ar, qid) := place_init [hive] PName.antQueen none
  let cs : ConfigState := { arena := ar, placesReg := [], beeEntrances := [],
                            hiveId := 0 }
  let cs := register_place cs 0 false
  let cs := buildTunnels qid len cs 0 tunnels
  { arena := cs.arena, placesReg := cs.placesReg, antRegistry := antReg,
    food := food, time := 0, hiveId := 0, queenRef := QueenRef.place qid,
    beeEntrances := cs.beeEntrances, nextAntId := 0, queenCounter := 0 }

/-! ### `AntColony.deploy_ant` / `AntColony.remove_ant` (lines 316-332) -/

/-- Each Ant constructor: fresh id, class-determined armor and damage;
`QueenAnt.__init__` additionally records `instance_num` from the class
counter `QueenAnt.number_of_queens` (kept in the colony state) and starts
an empty `doubled_ants`. -/
def mkAnt (k : AntKind) (aid qcount : Nat) : AntObj :=
  { data := { id := aid, kind := k, armor := initialArmor k,
              damage := baseDamage k,
              instanceNum := if k = AntKind.queen then qcount else 0,
              doubled := [] },
    contained := none }

/-- The constructor's side effects on the global counters: a fresh object
id, and `QueenAnt.number_of_queens += 1` when a queen is created. -/
def deployBump (s : Colony) (k : AntKind) : Colony :=
  { s with nextAntId := s.nextAntId + 1,
           queenCounter := if k = AntKind.queen then s.queenCounter + 1
             else s.queenCounter }

/-- `deploy_ant`: `self.ant_types[ant_type_name]` (KeyError →
`unknownVariant`), then the food check (the `print` branch →
`insufficientFood`, no state change), then `self.places[place_name]`
(KeyError → `unknownLocation`), then `add_insect(constructor())` and
`self.food -= cost`.  The constructor runs before `add_insect`, so the id
and queen counters advance even when `add_insect` raises. -/
def deploy_ant (s : Colony) (place_name : PName) (type_name : String) :
    Colony × Option Err :=
  match lookupKey s.antRegistry type_name with
  | none => (s, some Err.unknownVariant)
  | some k =>
    if s.food < foodCost k then (s, some Err.insufficientFood)
    else
      match lookupKey s.placesReg place_name with
      | none => (s, some Err.unknownLocation)
      | some pid =>
        match getPlace s.arena pid with
        | none => (s, some Err.unknownLocation)
        | some p =>
          match add_insect_ant p (mkAnt k s.nextAntId s.queenCounter) with
          | Except.error e => (deployBump s k, some e)
          | Except.ok p' =>
            ({ deployBump s k with arena := setPlace s.arena pid p',
                                   food := s.food - foodCost k }, none)

/-- `remove_ant`: `self.places[place_name]` (KeyError →
`unknownLocation`); `if place.ant is not None: place.remove_insect(...)`.
An unoccupied place is a silent no-op. -/
def remove_ant (s : Colony) (place_name : PName) : Colony × Option Err :=
  match lookupKey s.placesReg place_name with
  | none => (s, some Err.unknownLocation)
  | some pid =>
    match getPlace s.arena pid with
    | none => (s, some Err.unknownLocation)
    | some p =>
      match p.ant with
      | none => (s, none)
      | some b =>
        match remove_insect_ant p b.data.id with
        | Except.ok p' => ({ s with arena := setPlace s.arena pid p' }, none)
        | Except.error e => (s, some e)

/-! ### Colony queries (lines 334-344) and the win condition (299-314) -/

/-- `AntColony.bees`: every bee of every registered place, in registration
order. -/
def colony_bees (s : Colony) : List Bee :=
  (s.placesReg.map (fun nv => beesAt s nv.2)).flatten

/-- `AntColony.ants`: every slot ant of every registered place. -/
def colony_ants (s : Colony) : List AntObj :=
  (s.placesReg.filterMap (fun nv => slotAnt s nv.2))

/-- The bees at `colony.queen` (a plain place, or the `QueenPlace` union
of the original goal and the queen ant's place). -/
def queen_bees (s : Colony) : List Bee :=
  match s.queenRef with
  | QueenRef.place pid => beesAt s pid
  | QueenRef.queenPlace a b => beesAt s a ++ beesAt s b

/-- `simulate`'s win outcome: the loop runs while `queen.bees` is empty
and bees remain; the win message is printed exactly when the loop exits
with no bee at the queen, which forces `colony.bees` empty as well. -/
def game_won (s : Colony) : Prop :=
  queen_bees s = [] ∧ colony_bees s = []

/-! ### `ThrowerAnt.nearest_bee` / `throw_at` / `action` (lines 193-232)

`random_or_none` takes the random choice as an explicit index `pick`
(`l.get? (pick % l.length)` is a member of `l` whenever `l` is nonempty,
and `none` on the empty list, matching `random.choice(l) if l else
None`).  `nearest_bee` walks the entrance chain from the thrower's place,
counting the distance, until it reaches the hive; fuel bounds the walk
(the Python loop runs unboundedly, but every theorem below is about what
a returned target satisfies, or assumes the scanned chain).  The target
is returned together with the id of the place holding it (in Python the
bee object carries `self.place`). -/

def random_or_none (pick : Nat) (l : List Bee) : Option Bee :=
  l.get? (pick % l.length)

def nearestBeeAux (s : Colony) (minR maxR pick : Nat) :
    Nat → Nat → Nat → Option (Nat × Bee)
  | _, _, 0 => none
  | cur, dist, fuel + 1 =>
    if cur = s.hiveId then none
    else
      match getPlace s.arena cur with
      | none => none
      | some p =>
        if minR ≤ dist ∧ dist ≤ maxR ∧ p.bees ≠ [] then
          (random_or_none pick p.bees).map (fun b => (cur, b))
        else
          match p.entrance with
          | none => none
          | some e => nearestBeeAux s minR maxR pick e (dist + 1) fuel

def nearest_bee (s : Colony) (startId minR maxR pick fuel : Nat) :
    Option (Nat × Bee) :=
  nearestBeeAux s minR maxR pick startId 0 fuel

/-- `Insect.reduce_armor` applied to a bee: the bee's armor is decreased
in its place's list, and on `armor <= 0` it is removed from the list
(`bees.remove` drops the first identity match). -/
def beesAfterHit (bees : List Bee) (b : Bee) (bid : Nat) (amount : Int) :
    List Bee :=
  bees.map (fun x => (if x.id = bid then { b with armor := b.armor - amount } else x))

/-- The place after the hit bee's armor update and, when the armor
dropped to 0 or below, its removal (`bees.remove`). -/
def hitPlace (p : PlaceObj) (b : Bee) (bid : Nat) (amount : Int) : PlaceObj :=
  if b.armor - amount ≤ 0 then
    { p with bees := ((beesAfterHit p.bees b bid amount).eraseP (fun x => x.id == bid)) }
  else
    { p with bees := beesAfterHit p.bees b bid amount }

def reduce_bee_armor (s : Colony) (pid bid : Nat) (amount : Int) : Colony :=
  match getPlace s.arena pid with
  | none => s
  | some p =>
    match p.bees.find? (fun b => b.id == bid) with
    | none => s
    | some b =>
      { s with arena := setPlace s.arena pid (hitPlace p b bid amount) }

/-- `ThrowerAnt.throw_at`: reduce the target's armor by `damage` if a
target was found. -/
def throw_at (s : Colony) (damage : Int) : Option (Nat × Bee) → Colony
  | none => s
  | some (pid, b) => reduce_bee_armor s pid b.id damage

/-- `ThrowerAnt.action` for the thrower in the slot of place `pid`:
`self.throw_at(self.nearest_bee(colony.hive))`. -/
def thrower_action (s : Colony) (pid minR maxR pick fuel : Nat) : Colony :=
  match slotAnt s pid with
  | none => s
  | some a => throw_at s a.data.damage (nearest_bee s pid minR maxR pick fuel)

/-! ### `QueenAnt.action` / `double_damage` (lines 651-684) -/

/-- The first half of `QueenAnt.double_damage(ant)` (lines 677-680): when
the visited ant is a container holding one, the contained ant is doubled
if not already in `doubled_ants` and not the queen herself (`is not
self`, an id comparison), and recorded. -/
def double_damage_contained (q : AntData) (a : AntObj) : AntData × AntObj :=
  match a.contained with
  | some c =>
    if isContainer a.data.kind ∧ c.id ∉ q.doubled ∧ c.id ≠ q.id then
      ({ q with doubled := q.doubled ++ [c.id] },
       { a with contained := some { c with damage := c.damage * 2 } })
    else (q, a)
  | none => (q, a)

/-- The second half of `double_damage` (lines 682-684): the visited ant
itself, under the same not-yet-doubled / not-self conditions. -/
def double_damage_self (q : AntData) (a : AntObj) : AntData × AntObj :=
  if a.data.id ∉ q.doubled ∧ a.data.id ≠ q.id then
    ({ q with doubled := q.doubled ++ [a.data.id] },
     { a with data := { a.data with damage := a.data.damage * 2 } })
  else (q, a)

/-- `QueenAnt.double_damage(ant)`: contained ant first, then the visited
ant itself. -/
def double_damage (q : AntData) (a : AntObj) : AntData × AntObj :=
  double_damage_self (double_damage_contained q a).1 (double_damage_contained q a).2

/-- One step of the queen's forward walk at place `pid`: `if current.ant
is not None: self.double_damage(current.ant)`.  At the queen's own place
both branches of `double_damage` skip (`is not self` and
`QueenAnt.container == False`), so the step is the identity there; the
model short-circuits that case to keep the queen's state in one spot. -/
def doubleAt (s : Colony) (qpid pid : Nat) : Colony :=
  if pid = qpid then s
  else
    match getPlace s.arena pid with
    | none => s
    | some p =>
      match p.ant with
      | none => s
      | some a =>
        match getPlace s.arena qpid with
        | none => s
        | some qp =>
          match qp.ant with
          | none => s
          | some qobj =>
            let r := double_damage qobj.data a
            let ar := setPlace s.arena pid { p with ant := some r.2 }
            let ar := modifyPlace ar qpid
              (fun pp => { pp with ant := some { qobj with data := r.1 } })
            { s with arena := ar }

/-- The queen's backward walk (lines 662-665): from her own place along
entrances until the next entrance is `None` or the hive. -/
def queenWalkBack (s : Colony) : Nat → Nat → Nat
  | cur, 0 => cur
  | cur, fuel + 1 =>
    match placeEntrance s cur with
    | none => cur
    | some e => if e = s.hiveId then cur else queenWalkBack s e fuel

/-- The queen's forward walk (lines 667-670): `while current is not None`,
doubling at each place and following exits. -/
def doubleLoop (s : Colony) (qpid : Nat) : Option Nat → Nat → Colony
  | _, 0 => s
  | none, _ => s
  | some pid, fuel + 1 =>
    let s' := doubleAt s qpid pid
    doubleLoop s' qpid (placeExit s' pid) fuel

/-- The list of places the forward walk visits (computed in a fixed
state; `doubleAt` never changes an exit, so the walk's own trajectory
matches this list). -/
def exitChain (s : Colony) : Option Nat → Nat → List Nat
  | _, 0 => []
  | none, _ => []
  | some pid, fuel + 1 => pid :: exitChain s (placeExit s pid) fuel

def queenPath (s : Colony) (qpid fuel : Nat) : List Nat :=
  exitChain s (some (queenWalkBack s qpid fuel)) fuel

/-- `QueenAnt.action` for a queen sitting in the slot of place `qpid`.
An impostor (`instance_num > 0`) only calls
`self.reduce_armor(self.armor)`.  The true queen wraps `colony.queen`
into a `QueenPlace` once, walks back, doubles along exits, and finally
performs the inherited `ScubaThrower` (standard thrower) action. -/
def queen_action (s : Colony) (qpid pick fuel : Nat) : Colony × Option Err :=
  match getPlace s.arena qpid with
  | none => (s, none)
  | some p =>
    match p.ant with
    | none => (s, none)
    | some q =>
      if q.data.instanceNum > 0 then
        match reduce_armor_slot p q.data.armor with
        | Except.ok p' => ({ s with arena := setPlace s.arena qpid p' }, none)
        | Except.error e => (s, some e)
      else
        let s1 := match s.queenRef with
          | QueenRef.place cq => { s with queenRef := QueenRef.queenPlace cq qpid }
          | QueenRef.queenPlace _ _ => s
        let start := queenWalkBack s1 qpid fuel
        let s2 := doubleLoop s1 qpid (some start) fuel
        (thrower_action s2 qpid 0 10 pick fuel, none)

/-- `n` consecutive activations of the queen at `qpid`, with an arbitrary
random pick per activation. -/
def queenIter (qpid fuel : Nat) (picks : Nat → Nat) (s : Colony) : Nat → Colony
  | 0 => s
  | n + 1 => (queen_action (queenIter qpid fuel picks s n) qpid (picks n) fuel).1

/-! ### `AssaultPlan` (lines 431-467)

A dict subclass: `self.setdefault(time, []).extend(bees)` keeps the dict
in key-insertion order (Python 3.7 dict semantics), extending an existing
wave in place.  `all_bees` flattens the waves in that dict order. -/

structure AssaultPlan where
  bee_armor : Int
  waves : List (Nat × List Bee)
  nextId : Nat
deriving DecidableEq, Repr

def AssaultPlan.init (beeArmor : Int) : AssaultPlan :=
  { bee_armor := beeArmor, waves := [], nextId := 0 }

/-- `self.setdefault(time, []).extend(bees)`. -/
def setdefaultExtend (t : Nat) (bs : List Bee) :
    List (Nat × List Bee) → List (Nat × List Bee)
  | [] => [(t, bs)]
  | (t', ws) :: rest =>
    if t' = t then (t', ws ++ bs) :: rest else (t', ws) :: setdefaultExtend t bs rest

/-- `add_wave(time, count)`: `count` fresh bees of the plan's armor. -/
def add_wave (p : AssaultPlan) (time count : Nat) : AssaultPlan :=
  let bees := (List.range count).map
    (fun i => ({ id := p.nextId + i, armor := p.bee_armor } : Bee))
  { p with nextId := p.nextId + count,
           waves := setdefaultExtend time bees p.waves }

/-- `all_bees`: `[bee for wave in self.values() for bee in wave]` —
flattening in dict (key-insertion) order, recomputed from the waves on
each call. -/
def all_bees (p : AssaultPlan) : List Bee :=
  (p.waves.map Prod.snd).flatten

/-- A plan built by a chain of `add_wave` calls from an empty plan. -/
def buildPlan (beeArmor : Int) (reqs : List (Nat × Nat)) : AssaultPlan :=
  reqs.foldl (fun p r => add_wave p r.1 r.2) (AssaultPlan.init beeArmor)

/-- Modelled from the spec: "`allAttackers()`: lazy flattened sequence
over all waves in turn order".  The waves sorted by ascending turn
number, then flattened — the reading the claim asserts for `all_bees`. -/
def insertWave (w : Nat × List Bee) :
    List (Nat × List Bee) → List (Nat × List Bee)
  | [] => [w]
  | w' :: rest =>
    if w.1 < w'.1 then w :: w' :: rest else w' :: insertWave w rest

def sortWaves : List (Nat × List Bee) → List (Nat × List Bee)
  | [] => []
  | w :: rest => insertWave w (sortWaves rest)

def allAttackersByTurn (p : AssaultPlan) : List Bee :=
  ((sortWaves p.waves).map Prod.snd).flatten

/-! ## Basic lemmas about the arena and registries -/

theorem getPlace_set_eq (ar : List PlaceObj) (i : Nat) (p : PlaceObj)
    (h : i < ar.length) : getPlace (setPlace ar i p) i = some p := by
  simp only [getPlace, setPlace, List.get?_eq_getElem?]
  exact List.getElem?_set_eq_of_lt p h

theorem getPlace_set_ne (ar : List PlaceObj) (i j : Nat) (p : PlaceObj)
    (h : i ≠ j) : getPlace (setPlace ar i p) j = getPlace ar j := by
  simp only [getPlace, setPlace, List.get?_eq_getElem?]
  exact List.getElem?_set_ne h

theorem getPlace_modify_ne (ar : List PlaceObj) (i j : Nat)
    (f : PlaceObj → PlaceObj) (h : i ≠ j) :
    getPlace (modifyPlace ar i f) j = getPlace ar j := by
  unfold modifyPlace
  cases hg : ar.get? i with
  | none => rfl
  | some p => exact getPlace_set_ne ar i j (f p) h

theorem getPlace_modify_eq (ar : List PlaceObj) (i : Nat) (p : PlaceObj)
    (f : PlaceObj → PlaceObj) (h : getPlace ar i = some p) :
    getPlace (modifyPlace ar i f) i = some (f p) := by
  unfold modifyPlace
  unfold getPlace at h
  rw [h]
  exact getPlace_set_eq ar i (f p) (List.get?_eq_some.mp h).1

theorem getPlace_append_lt (ar : List PlaceObj) (l : List PlaceObj) (i : Nat)
    (h : i < ar.length) : getPlace (ar ++ l) i = getPlace ar i := by
  simp only [getPlace, List.get?_eq_getElem?]
  rw [List.getElem?_append, if_pos h]

theorem getPlace_append_len (ar : List PlaceObj) (p : PlaceObj) :
    getPlace (ar ++ [p]) ar.length = some p := by
  simp [getPlace]

theorem getPlace_lt_length (ar : List PlaceObj) (i : Nat) (p : PlaceObj)
    (h : getPlace ar i = some p) : i < ar.length :=
  (List.get?_eq_some.mp h).1

theorem lookupKey_mem {κ α : Type} [DecidableEq κ] (l : List (κ × α)) (k : κ)
    (v : α) (h : lookupKey l k = some v) : (k, v) ∈ l := by
  induction l with
  | nil => simp [lookupKey] at h
  | cons hd tl ih =>
    unfold lookupKey at h
    by_cases hk : hd.1 = k
    · obtain ⟨k', v'⟩ := hd
      simp only at hk
      subst hk
      simp at h
      subst h
      exact List.mem_cons_self _ _
    · obtain ⟨k', v'⟩ := hd
      simp only at hk
      rw [if_neg hk] at h
      exact List.mem_cons_of_mem _ (ih h)

theorem lookupKey_dictInsert_ne {κ α : Type} [DecidableEq κ]
    (l : List (κ × α)) (k k' : κ) (v : α) (h : k' ≠ k) :
    lookupKey (dictInsert l k' v) k = lookupKey l k := by
  induction l with
  | nil => simp [dictInsert, lookupKey, h]
  | cons hd tl ih =>
    obtain ⟨k0, v0⟩ := hd
    unfold dictInsert
    by_cases hk : k0 = k'
    · subst hk
      simp only [if_pos rfl, lookupKey, if_neg h]
    · simp only [if_neg hk, lookupKey]
      by_cases h0 : k0 = k
      · simp [h0]
      · simp [h0, ih]

/-! ## Claim C3 — deploying with insufficient food is rejected with no
state change -/

/-- Claim C3: for every colony state, deploying a Defender whose declared
food cost exceeds the available food is rejected with an
`InsufficientFood` error (in the source, the `'Not enough food remains'`
branch of `deploy_ant`, which returns before touching anything) and
causes no state change: the returned colony is the input colony itself,
so the food counter and every Location's occupancy are unchanged. -/
theorem deploy_insufficient_food_rejected (s : Colony) (pn : PName)
    (tn : String) (k : AntKind) (hk : lookupKey s.antRegistry tn = some k)
    (hf : s.food < foodCost k) :
    deploy_ant s pn tn = (s, some Err.insufficientFood) := by
  unfold deploy_ant
  rw [hk]
  simp [hf]

/-- A small configured colony for concrete instantiations: the test
layout (one tunnel of length 3), starting food 2, the `ant_types`
registry, no hive bees. -/
def colony3 : Colony := make_colony [] 3 1 2 antTypesRegistry

theorem deploy_insufficient_food_rejected_witness :
    lookupKey colony3.antRegistry "Thrower" = some AntKind.thrower ∧
    colony3.food < foodCost AntKind.thrower ∧
    deploy_ant colony3 (PName.tunnel 0 0) "Thrower" =
      (colony3, some Err.insufficientFood) :=
  ⟨by decide, by decide,
   deploy_insufficient_food_rejected colony3 (PName.tunnel 0 0) "Thrower"
     AntKind.thrower (by decide) (by decide)⟩

/-! ## Claim C10 — the Queen variant is not deployable -/

/-- Claim C10: `QueenAnt.implemented` is `False`, so `ant_types` excludes
it from the registry, and `deploy_ant` with variant name `'Queen'` hits a
`KeyError` (`unknownVariant`) on every colony built with that registry,
with no state change. -/
theorem queen_variant_not_deployable (s : Colony) (pn : PName)
    (hreg : s.antRegistry = antTypesRegistry) :
    implementedFlag AntKind.queen = false ∧
    AntKind.queen ∉ ant_types ∧
    lookupKey antTypesRegistry "Queen" = none ∧
    deploy_ant s pn "Queen" = (s, some Err.unknownVariant) := by
  have hnone : lookupKey antTypesRegistry "Queen" = none := by decide
  refine ⟨rfl, by decide, hnone, ?_⟩
  unfold deploy_ant
  rw [hreg, hnone]

theorem queen_variant_not_deployable_witness :
    deploy_ant colony3 (PName.tunnel 0 0) "Queen" =
      (colony3, some Err.unknownVariant) :=
  (queen_variant_not_deployable colony3 (PName.tunnel 0 0) rfl).2.2.2

/-! ## Claim C4 — removal of absent actors

The claim says removal from an unoccupied Location fails with
`NotPresent`.  `AntColony.remove_ant` in fact guards with
`if place.ant is not None:` and silently does nothing on an unoccupied
place — no error, no state change.  Only the direct
`Place.remove_insect` on an actor that is not the occupant fails (its
`assert`, resp. `list.remove`'s `ValueError`). -/

/-- Counterexample to claim C4 as stated: in the concrete colony
`colony3`, place `tunnel_0_1` is unoccupied, and `remove_ant` returns the
unchanged colony with no error at all, instead of failing with
`NotPresent`. -/
theorem remove_ant_empty_place_is_noop :
    slotAnt colony3 3 = none ∧
    lookupKey colony3.placesReg (PName.tunnel 0 1) = some 3 ∧
    remove_ant colony3 (PName.tunnel 0 1) = (colony3, none) := by
  refine ⟨by decide, by decide, by decide⟩

/-- Claim C4, amended: requesting removal of a Defender from an
unoccupied Location through the colony's `remove_ant` is a silent no-op
(no error is raised and the state is unchanged), while removing an actor
that is not present directly through the Location's `remove_insect` fails
with `NotPresent` — for a Defender that is not the visible slot occupant,
and for a Bee that is not in the Location's bee list. -/
theorem remove_absent_actor_behavior (s : Colony) (pn : PName) (pid : Nat)
    (p : PlaceObj) (hlp : lookupKey s.placesReg pn = some pid)
    (hgp : getPlace s.arena pid = some p) :
    (p.ant = none → remove_ant s pn = (s, none)) ∧
    (∀ aid, (∀ b, p.ant = some b → b.data.id ≠ aid) →
      remove_insect_ant p aid = Except.error Err.notPresent) ∧
    (∀ bid, (∀ b, b ∈ p.bees → b.id ≠ bid) →
      remove_insect_bee p bid = Except.error Err.notPresent) := by
  refine ⟨?_, ?_, ?_⟩
  · intro hnone
    simp [remove_ant, hlp, hgp, hnone]
  · intro aid habs
    cases hant : p.ant with
    | none => simp [remove_insect_ant, hant]
    | some b => simp [remove_insect_ant, hant, habs b hant]
  · intro bid habs
    have hany : p.bees.any (fun b => b.id == bid) = false := by
      simp only [List.any_eq_false, beq_iff_eq]
      intro b hb
      exact habs b hb
    simp [remove_insect_bee, hany]

/-- The (unoccupied) place object at `tunnel_0_1` in `colony3`. -/
def emptyTunnelPlace : PlaceObj :=
  { pname := PName.tunnel 0 1, exit := some 2, entrance := some 4,
    bees := [], ant := none }

theorem remove_absent_actor_behavior_witness :
    remove_ant colony3 (PName.tunnel 0 1) = (colony3, none) ∧
    remove_insect_ant emptyTunnelPlace 9 = Except.error Err.notPresent := by
  have h := remove_absent_actor_behavior colony3 (PName.tunnel 0 1) 3
    emptyTunnelPlace (by decide) (by decide)
  exact ⟨h.1 rfl, h.2.1 9 (by intro b hb; cases hb)⟩

/-! ## Claim C1 — lethal damage removes a Defender from its Location

`reduce_armor` is dynamically dispatched: `FireAnt` overrides it to cook
every bee at its place before its own removal, every other class runs
`Insect.reduce_armor`, which calls `Place.remove_insect`.
`remove_insect` returns early for the true Queen (`instance_num == 0`),
leaving her in the slot, and for a contained Defender the
`assert self.ant == insect` fails, leaving it inside its container.  So
the claim holds only for slot occupants other than the true Queen, and
the bee list survives only for non-Fire Defenders. -/

/-- A place holding the true Queen (instance 0) with armor 1, for the C1
counterexample. -/
def trueQueenPlace : PlaceObj :=
  { pname := PName.tunnel 0 0, exit := some 1, entrance := none, bees := [],
    ant := some { data := { id := 5, kind := AntKind.queen, armor := 1,
                            damage := 1, instanceNum := 0, doubled := [] },
                  contained := none } }

/-- The slot occupant of `trueQueenPlace` after the lethal hit: the same
Queen, armor 0, still in place. -/
def trueQueenAfter : AntObj :=
  { data := { id := 5, kind := AntKind.queen, armor := 0, damage := 1,
              instanceNum := 0, doubled := [] }, contained := none }

/-- Counterexample to claim C1 as stated: lethal `reduce_armor`
(dispatched: the Queen has no override, so `Insect.reduce_armor` runs)
on the true Queen (a Defender) succeeds, but she is still the Location's
slot occupant afterwards (with armor 0 and the same identity), because
`remove_insect` returns early for `QueenAnt` instance 0. -/
theorem reduce_armor_true_queen_not_removed :
    reduce_armor_slot_dispatched trueQueenPlace 1 =
      Except.ok { trueQueenPlace with ant := some trueQueenAfter } ∧
    trueQueenAfter.data.id = 5 ∧ trueQueenAfter.data.armor ≤ 0 :=
  ⟨rfl, rfl, by decide⟩

/-- Claim C1, amended: for every Defender that is its Location's visible
slot occupant and is not the permanent (first) Queen instance, if the
dispatched `reduce_armor` brings its armor to 0 or below then the call
succeeds and the Defender is absent from the Location's ant slot
immediately afterwards (a contained Defender it held becomes the new
occupant).  A non-Fire Defender leaves the bee list untouched; a Fire
Defender's override first deals its damage to every bee at the place,
dying bees leaving the list.  (The true Queen instead stays in place,
and a contained Defender's removal fails with `NotPresent`, leaving it
inside its container — see the counterexample and
`reduce_armor_contained`.) -/
theorem lethal_damage_removes_slot_occupant (p : PlaceObj) (a : AntObj)
    (amount : Int) (hp : p.ant = some a)
    (hq : ¬(a.data.kind = AntKind.queen ∧ a.data.instanceNum = 0))
    (hc : ∀ c, a.contained = some c → c.id ≠ a.data.id)
    (hl : a.data.armor - amount ≤ 0) :
    ∃ p', reduce_armor_slot_dispatched p amount = Except.ok p' ∧
      (∀ b, p'.ant = some b → b.data.id ≠ a.data.id) ∧
      (a.data.kind ≠ AntKind.fire → p'.bees = p.bees) ∧
      (a.data.kind = AntKind.fire →
        p'.bees = fire_cook_bees p.bees a.data.damage) := by
  by_cases hf : a.data.kind = AntKind.fire
  · have hic : isContainer AntKind.fire = false := rfl
    refine ⟨{ p with bees := fire_cook_bees p.bees a.data.damage, ant := none }, ?_, ?_, fun hnf => absurd hf hnf, fun _ => rfl⟩
    · simp [reduce_armor_slot_dispatched, hp, hf, hl, remove_insect_ant, hic]
    · intro b hb
      simp at hb
  · have hrw : reduce_armor_slot_dispatched p amount =
        reduce_armor_slot p amount := by
      simp [reduce_armor_slot_dispatched, reduce_armor_slot, hp, hf]
    rw [hrw]
    cases hco : a.contained with
    | some c =>
      by_cases hic : isContainer a.data.kind = true
      · refine ⟨{ p with ant := some { data := c, contained := none } },
          ?_, ?_, fun _ => rfl, fun hfk => absurd hfk hf⟩
        · simp [reduce_armor_slot, hp, remove_insect_ant, hl, hq, hic, hco]
        · intro b hb
          simp only [Option.some_inj] at hb
          subst hb
          exact hc c hco
      · refine ⟨{ p with ant := none }, ?_, ?_, fun _ => rfl,
          fun hfk => absurd hfk hf⟩
        · simp [reduce_armor_slot, hp, remove_insect_ant, hl, hq, hic, hco]
        · intro b hb
          simp at hb
    | none =>
      refine ⟨{ p with ant := none }, ?_, ?_, fun _ => rfl,
        fun hfk => absurd hfk hf⟩
      · simp [reduce_armor_slot, hp, remove_insect_ant, hl, hq, hco]
      · intro b hb
        simp at hb

/-- A place holding a plain Thrower (armor 1) for the C1 witness. -/
def throwerPlace : PlaceObj :=
  { pname := PName.tunnel 0 0, exit := some 1, entrance := none, bees := [],
    ant := some { data := { id := 4, kind := AntKind.thrower, armor := 1,
                            damage := 1, instanceNum := 0, doubled := [] },
                  contained := none } }

/-- A place holding a Fire Defender (armor 1, damage 3) with two bees,
of armor 3 (dies to the cook) and armor 5 (survives with armor 2). -/
def firePlace : PlaceObj :=
  { pname := PName.tunnel 0 0, exit := some 1, entrance := none,
    bees := [{ id := 10, armor := 3 }, { id := 11, armor := 5 }],
    ant := some { data := { id := 4, kind := AntKind.fire, armor := 1,
                            damage := 3, instanceNum := 0, doubled := [] },
                  contained := none } }

theorem lethal_damage_removes_slot_occupant_witness :
    (∃ p', reduce_armor_slot_dispatched throwerPlace 1 = Except.ok p' ∧
      (∀ b, p'.ant = some b → b.data.id ≠ 4) ∧
      (AntKind.thrower ≠ AntKind.fire → p'.bees = throwerPlace.bees) ∧
      (AntKind.thrower = AntKind.fire →
        p'.bees = fire_cook_bees throwerPlace.bees 1)) ∧
    (∃ p', reduce_armor_slot_dispatched firePlace 1 = Except.ok p' ∧
      (∀ b, p'.ant = some b → b.data.id ≠ 4) ∧
      (AntKind.fire ≠ AntKind.fire → p'.bees = firePlace.bees) ∧
      (AntKind.fire = AntKind.fire →
        p'.bees = fire_cook_bees firePlace.bees 3)) :=
  ⟨lethal_damage_removes_slot_occupant throwerPlace _ 1 rfl (by decide)
    (by intro c hc; cases hc) (by decide),
   lethal_damage_removes_slot_occupant firePlace _ 1 rfl (by decide)
    (by intro c hc; cases hc) (by decide)⟩

/-! ## Claim C6 — impostor Queens self-destruct, the true Queen is never
removed

`QueenAnt.action` with `instance_num > 0` runs
`self.reduce_armor(self.armor)` and returns.  When the impostor is the
visible slot occupant this removes her; but when she is *contained* in a
Bodyguard (which `can_contain` allows), the removal's
`assert self.ant == insect` fails and she stays in the container, so the
claim's "is removed from its Location" does not hold universally. -/

/-- A place holding a Bodyguard that contains an impostor Queen
(`instance_num = 1`, armor 1). -/
def bodyguardImpostorPlace : PlaceObj :=
  { pname := PName.tunnel 0 0, exit := some 1, entrance := none, bees := [],
    ant := some { data := { id := 6, kind := AntKind.bodyguard, armor := 2,
                            damage := 0, instanceNum := 0, doubled := [] },
                  contained := some { id := 7, kind := AntKind.queen,
                                      armor := 1, damage := 1,
                                      instanceNum := 1, doubled := [] } } }

/-- The same place after the contained impostor's self-destruct: her armor
is 0 but she is still inside the Bodyguard. -/
def bodyguardImpostorAfter : PlaceObj :=
  { pname := PName.tunnel 0 0, exit := some 1, entrance := none, bees := [],
    ant := some { data := { id := 6, kind := AntKind.bodyguard, armor := 2,
                            damage := 0, instanceNum := 0, doubled := [] },
                  contained := some { id := 7, kind := AntKind.queen,
                                      armor := 0, damage := 1,
                                      instanceNum := 1, doubled := [] } } }

/-- Counterexample to claim C6 as stated: an impostor Queen (instance 1)
contained in a Bodyguard acts — i.e. runs `self.reduce_armor(self.armor)`
per `QueenAnt.action` lines 654-655 — and her armor drops to 0, but the
removal fails with `NotPresent` (`remove_insect`'s
`assert self.ant == insect` sees the Bodyguard in the slot) and she
remains inside the Bodyguard at her Location. -/
theorem contained_impostor_queen_not_removed :
    reduce_armor_contained bodyguardImpostorPlace 1 =
      (bodyguardImpostorAfter, some Err.notPresent) ∧
    (∃ b, bodyguardImpostorAfter.ant = some b ∧
      b.contained = some { id := 7, kind := AntKind.queen, armor := 0,
                           damage := 1, instanceNum := 1, doubled := [] }) :=
  ⟨rfl, ⟨_, rfl, rfl⟩⟩

/-- Claim C6, amended: every Queen instance created after the first
(`instance_num > 0`), when it acts as a Location's visible slot occupant,
immediately reduces its own armor to zero and is removed from that
Location's slot; a contained impostor's removal instead fails with
`NotPresent` and she stays in her container.  The first Queen instance is
never removed by the remove operation: `remove_insect` on her either
returns the place unchanged (when she is the occupant) or fails with
`NotPresent`. -/
theorem impostor_queen_self_destructs (s : Colony) (qpid pick fuel : Nat)
    (p : PlaceObj) (q : AntObj) (hgp : getPlace s.arena qpid = some p)
    (hant : p.ant = some q) (hkind : q.data.kind = AntKind.queen)
    (hinst : 0 < q.data.instanceNum) :
    queen_action s qpid pick fuel =
      ({ s with arena := setPlace s.arena qpid { p with ant := none } }, none) ∧
    (∀ p' b aid, p'.ant = some b → b.data.kind = AntKind.queen →
      b.data.instanceNum = 0 →
      ∀ r, remove_insect_ant p' aid = Except.ok r → r = p') := by
  constructor
  · have hic : isContainer q.data.kind = false := by rw [hkind]; rfl
    have hq0 : ¬(q.data.kind = AntKind.queen ∧
        ({ q.data with armor := q.data.armor - q.data.armor }).instanceNum = 0) := by
      intro hcon
      simp only at hcon
      omega
    simp [queen_action, hgp, hant, hinst, reduce_armor_slot,
      remove_insect_ant, hq0, hic]
  · intro p' b aid hb hbk hbi r hr
    unfold remove_insect_ant at hr
    rw [hb] at hr
    by_cases hid : b.data.id = aid
    · simp only [hid, if_pos, hbk, hbi, and_self, if_true] at hr
      simp at hr
      exact hr.symm
    · simp [hid] at hr

/-- A colony whose registry also lists the Queen (as `AntColony.__init__`
would build it if `QueenAnt` were passed in `ant_types`), with plenty of
food, used to create concrete queens through `deploy_ant`. -/
def queenRegistry : List (String × AntKind) :=
  antTypesRegistry ++ [("Queen", AntKind.queen)]

/-- A colony with the true Queen at `tunnel_0_0` and an impostor Queen
(instance 1) at `tunnel_0_1`. -/
def twoQueenColony : Colony :=
  (deploy_ant (deploy_ant (make_colony [] 3 1 30 queenRegistry)
    (PName.tunnel 0 0) "Queen").1 (PName.tunnel 0 1) "Queen").1

theorem impostor_queen_self_destructs_witness :
    (queen_action twoQueenColony 3 0 20).2 = none ∧
    slotAnt (queen_action twoQueenColony 3 0 20).1 3 = none := by
  have hgp : getPlace twoQueenColony.arena 3 =
      some { pname := PName.tunnel 0 1, exit := some 2, entrance := some 4,
             bees := [],
             ant := some { data := { id := 1, kind := AntKind.queen,
                                     armor := 1, damage := 1,
                                     instanceNum := 1, doubled := [] },
                           contained := none } } := by decide
  have h := (impostor_queen_self_destructs twoQueenColony 3 0 20 _ _ hgp rfl
    rfl (by decide)).1
  rw [h]
  constructor
  · rfl
  · decide

/-! ## Claim C8 — `all_bees` and wave order

`AssaultPlan` is a `dict` subclass; `self.values()` iterates in
key-insertion order, not ascending turn order, so `all_bees` flattens
waves in the order their turn keys were first inserted.  Only when
`add_wave` calls come in ascending turn order (as every plan constructor
in the repository does) does this coincide with ascending turn number. -/

/-- A plan whose waves were added out of turn order: turn 5 first, then
turn 2. -/
def outOfOrderPlan : AssaultPlan :=
  add_wave (add_wave (AssaultPlan.init 3) 5 1) 2 1

/-- Counterexample to claim C8 as stated: in `outOfOrderPlan` the
turn-5 wave precedes the turn-2 wave in `all_bees` (insertion order), so
the flattening is not ordered by ascending turn number. -/
theorem all_bees_not_in_turn_order :
    outOfOrderPlan.waves = [(5, [{ id := 0, armor := 3 }]),
                            (2, [{ id := 1, armor := 3 }])] ∧
    all_bees outOfOrderPlan = [{ id := 0, armor := 3 }, { id := 1, armor := 3 }] ∧
    all_bees outOfOrderPlan ≠ allAttackersByTurn outOfOrderPlan := by
  refine ⟨rfl, rfl, by decide⟩

theorem wavesKeys_setdefaultExtend (t : Nat) (bs : List Bee)
    (l : List (Nat × List Bee)) :
    (setdefaultExtend t bs l).map Prod.fst =
      if t ∈ l.map Prod.fst then l.map Prod.fst else l.map Prod.fst ++ [t] := by
  induction l with
  | nil => simp [setdefaultExtend]
  | cons hd tl ih =>
    obtain ⟨t', ws⟩ := hd
    unfold setdefaultExtend
    by_cases ht : t' = t
    · subst ht
      simp
    · simp only [if_neg ht, List.map_cons, ih]
      have ht' : t ≠ t' := fun hc => ht hc.symm
      by_cases hmem : t ∈ tl.map Prod.fst
      · simp [hmem, ht']
      · simp [hmem, ht']

theorem buildPlan_keys_sorted (reqs : List (Nat × Nat)) (p : AssaultPlan)
    (hkeys : (p.waves.map Prod.fst).Pairwise (· < ·))
    (hle : ∀ k ∈ p.waves.map Prod.fst, ∀ r ∈ reqs, k ≤ r.1)
    (hasc : (reqs.map Prod.fst).Pairwise (· ≤ ·)) :
    ((reqs.foldl (fun pl r => add_wave pl r.1 r.2) p).waves.map
      Prod.fst).Pairwise (· < ·) := by
  induction reqs generalizing p with
  | nil => simpa using hkeys
  | cons r rest ih =>
    simp only [List.foldl_cons]
    apply ih
    · show ((add_wave p r.1 r.2).waves.map Prod.fst).Pairwise (· < ·)
      unfold add_wave
      simp only
      rw [wavesKeys_setdefaultExtend]
      by_cases hmem : r.1 ∈ p.waves.map Prod.fst
      · simpa [hmem] using hkeys
      · rw [if_neg hmem]
        rw [List.pairwise_append]
        refine ⟨hkeys, List.pairwise_singleton _ _, ?_⟩
        intro k hk b hb
        simp only [List.mem_singleton] at hb
        subst hb
        have hle' := hle k hk r (List.mem_cons_self _ _)
        rcases Nat.lt_or_ge k r.1 with h | h
        · exact h
        · exact absurd (Nat.le_antisymm hle' h) (fun he => hmem (he ▸ hk))
    · intro k hk r' hr'
      unfold add_wave at hk
      simp only at hk
      rw [wavesKeys_setdefaultExtend] at hk
      by_cases hmem : r.1 ∈ p.waves.map Prod.fst
      · rw [if_pos hmem] at hk
        exact hle k hk r' (List.mem_cons_of_mem _ hr')
      · rw [if_neg hmem] at hk
        rcases List.mem_append.mp hk with hk' | hk'
        · exact hle k hk' r' (List.mem_cons_of_mem _ hr')
        · simp only [List.mem_singleton] at hk'
          subst hk'
          simp only [List.map_cons, List.pairwise_cons] at hasc
          exact hasc.1 r'.1 (List.mem_map_of_mem Prod.fst hr')
    · simp only [List.map_cons, List.pairwise_cons] at hasc
      exact hasc.2

theorem sortWaves_eq_self (l : List (Nat × List Bee))
    (h : (l.map Prod.fst).Pairwise (· < ·)) : sortWaves l = l := by
  induction l with
  | nil => rfl
  | cons w rest ih =>
    simp only [List.map_cons, List.pairwise_cons] at h
    unfold sortWaves
    rw [ih h.2]
    cases rest with
    | nil => rfl
    | cons w' rest' =>
      unfold insertWave
      rw [if_pos (h.1 w'.1 (List.mem_map_of_mem Prod.fst (List.mem_cons_self _ _)))]

/-- Claim C8, amended: `all_bees` yields the flattened sequence of all
waves in the order each wave's turn key was first inserted (each wave's
Attackers in insertion order); when the `add_wave` calls are made in
ascending turn order — as every plan constructor in this repository does —
this coincides with the flattening ordered by ascending turn number
(`allAttackersByTurn`).  The sequence is recomputed from the waves on
each call (`all_bees` is a pure function of the plan). -/
theorem all_bees_turn_order_when_ascending (armor : Int)
    (reqs : List (Nat × Nat))
    (hasc : (reqs.map Prod.fst).Pairwise (· ≤ ·)) :
    all_bees (buildPlan armor reqs) = allAttackersByTurn (buildPlan armor reqs) := by
  have hkeys : ((buildPlan armor reqs).waves.map Prod.fst).Pairwise (· < ·) := by
    unfold buildPlan
    apply buildPlan_keys_sorted
    · simp [AssaultPlan.init]
    · intro k hk
      simp [AssaultPlan.init] at hk
    · exact hasc
  unfold allAttackersByTurn
  rw [sortWaves_eq_self _ hkeys]
  rfl

theorem all_bees_turn_order_when_ascending_witness :
    all_bees (buildPlan 3 [(2, 1), (3, 1)]) =
      allAttackersByTurn (buildPlan 3 [(2, 1), (3, 1)]) :=
  all_bees_turn_order_when_ascending 3 [(2, 1), (3, 1)] (by decide)

/-! ## Claim C9 — bees waiting in the Hive block the win condition

`configure` registers the hive itself (`register_place(self.hive,
False)`), so `AntColony.bees` includes every bee still sitting in the
hive, and `simulate`'s win branch (which requires `len(self.bees) == 0`)
cannot be reached while a scheduled wave is unreleased. -/

/-- The fresh place object `Place.__init__` appends. -/
def mkPlace (name : PName) (ex : Option Nat) : PlaceObj :=
  { pname := name, exit := ex, entrance := none, bees := [], ant := none }

theorem place_init_some (ar : List PlaceObj) (name : PName) (e : Nat) :
    place_init ar name (some e) =
      (modifyPlace (ar ++ [mkPlace name (some e)]) e
        (fun p => { p with entrance := some ar.length }), ar.length) := rfl

theorem modifyPlace_length (ar : List PlaceObj) (i : Nat)
    (f : PlaceObj → PlaceObj) : (modifyPlace ar i f).length = ar.length := by
  unfold modifyPlace
  cases hg : ar.get? i with
  | none => rfl
  | some p => simp [setPlace]

theorem buildTunnelSteps_preserves (t : Nat) :
    ∀ (n : Nat) (cs : ConfigState) (e step : Nat), 0 < e →
      e < cs.arena.length →
      lookupKey (buildTunnelSteps cs t e step n).placesReg PName.hive =
        lookupKey cs.placesReg PName.hive ∧
      getPlace (buildTunnelSteps cs t e step n).arena 0 = getPlace cs.arena 0 ∧
      cs.arena.length ≤ (buildTunnelSteps cs t e step n).arena.length := by
  intro n
  induction n with
  | zero => intro cs e step he hel; exact ⟨rfl, rfl, Nat.le_refl _⟩
  | succ m ih =>
    intro cs e step he hel
    unfold buildTunnelSteps
    have hlen0 : 0 < cs.arena.length := Nat.lt_of_le_of_lt (Nat.zero_le e) hel
    rw [place_init_some]
    simp only
    set ar1 := modifyPlace (cs.arena ++ [mkPlace (PName.tunnel t step) (some e)]) e
      (fun p => { p with entrance := some cs.arena.length }) with har1
    have har1len : ar1.length = cs.arena.length + 1 := by
      rw [har1, modifyPlace_length]
      simp
    have hget0 : getPlace ar1 0 = getPlace cs.arena 0 := by
      rw [har1]
      rw [getPlace_modify_ne _ _ _ _ (Nat.ne_of_gt he)]
      exact getPlace_append_lt _ _ _ hlen0
    have hgetPid : getPlace ar1 cs.arena.length =
        some (mkPlace (PName.tunnel t step) (some e)) := by
      rw [har1]
      rw [getPlace_modify_ne _ _ _ _ (Nat.ne_of_lt hel)]
      exact getPlace_append_len _ _
    have hrp : ∀ flag, lookupKey (register_place { cs with arena := ar1 }
        cs.arena.length flag).placesReg PName.hive =
          lookupKey cs.placesReg PName.hive ∧
        getPlace (register_place { cs with arena := ar1 }
          cs.arena.length flag).arena 0 = getPlace cs.arena 0 ∧
        (register_place { cs with arena := ar1 }
          cs.arena.length flag).arena.length = cs.arena.length + 1 := by
      intro flag
      unfold register_place
      simp only [hgetPid]
      cases flag with
      | false =>
        simp only [Bool.false_eq_true, if_false]
        refine ⟨?_, hget0, har1len⟩
        exact lookupKey_dictInsert_ne _ _ _ _ (by intro hc; cases hc)
      | true =>
        simp only [if_true]
        refine ⟨?_, ?_, ?_⟩
        · exact lookupKey_dictInsert_ne _ _ _ _ (by intro hc; cases hc)
        · rw [getPlace_modify_ne _ _ _ _ (Nat.ne_of_gt hlen0)]
          exact hget0
        · rw [modifyPlace_length]
          exact har1len
    rcases hrp (decide (m = 0)) with ⟨hL, hG, hLen⟩
    have hih := ih (register_place { cs with arena := ar1 } cs.arena.length
      (decide (m = 0))) cs.arena.length (step + 1) hlen0
      (by rw [hLen]; exact Nat.lt_succ_self _)
    rcases hih with ⟨iL, iG, iLen⟩
    refine ⟨iL.trans hL, iG.trans hG, ?_⟩
    rw [hLen] at iLen
    exact Nat.le_of_succ_le iLen

theorem buildTunnels_preserves (qid len : Nat) :
    ∀ (n : Nat) (cs : ConfigState) (tIdx : Nat), 0 < qid →
      qid < cs.arena.length →
      lookupKey (buildTunnels qid len cs tIdx n).placesReg PName.hive =
        lookupKey cs.placesReg PName.hive ∧
      getPlace (buildTunnels qid len cs tIdx n).arena 0 = getPlace cs.arena 0 := by
  intro n
  induction n with
  | zero => intro cs tIdx hq hql; exact ⟨rfl, rfl⟩
  | succ m ih =>
    intro cs tIdx hq hql
    unfold buildTunnels
    rcases buildTunnelSteps_preserves tIdx len cs qid 0 hq hql with ⟨hL, hG, hLen⟩
    rcases ih (buildTunnelSteps cs tIdx qid 0 len) (tIdx + 1) hq
      (Nat.lt_of_lt_of_le hql hLen) with ⟨iL, iG⟩
    exact ⟨iL.trans hL, iG.trans hG⟩

/-- The `Hive` place as built by `Hive.__init__`. -/
def hivePlace0 (hiveBees : List Bee) : PlaceObj :=
  { pname := PName.hive, exit := none, entrance := none, bees := hiveBees,
    ant := none }

/-- The configuration state right before the layout runs: hive and
`'AntQueen'` place in the arena, the hive registered. -/
def configBase (hiveBees : List Bee) : ConfigState :=
  { arena := [hivePlace0 hiveBees, mkPlace PName.antQueen none],
    placesReg := [(PName.hive, 0)], beeEntrances := [], hiveId := 0 }

theorem make_colony_unfold (hb : List Bee) (len tun food : Nat)
    (reg : List (String × AntKind)) :
    make_colony hb len tun food reg =
      { arena := (buildTunnels 1 len (configBase hb) 0 tun).arena,
        placesReg := (buildTunnels 1 len (configBase hb) 0 tun).placesReg,
        antRegistry := reg, food := food, time := 0, hiveId := 0,
        queenRef := QueenRef.place 1,
        beeEntrances := (buildTunnels 1 len (configBase hb) 0 tun).beeEntrances,
        nextAntId := 0, queenCounter := 0 } := rfl

/-- `configure` registers the hive under its name (arena index 0), and the
hive keeps its bee list (the assault plan's bees placed by
`Hive.__init__`) through the whole configuration. -/
theorem make_colony_hive_registered (hiveBees : List Bee)
    (len tunnels food : Nat) (antReg : List (String × AntKind)) :
    lookupKey (make_colony hiveBees len tunnels food antReg).placesReg
      PName.hive = some 0 ∧
    getPlace (make_colony hiveBees len tunnels food antReg).arena 0 =
      some (hivePlace0 hiveBees) := by
  rw [make_colony_unfold]
  rcases buildTunnels_preserves 1 len tunnels (configBase hiveBees) 0
    Nat.one_pos (by show 1 < 2; decide) with ⟨hL, hG⟩
  exact ⟨by rw [hL]; rfl, by rw [hG]; rfl⟩

/-- Claim C9: a bee still waiting in the Hive counts among the colony's
bees (`AntColony.bees` spans all registered places and the Hive is
registered by `configure`), so the simulation's win condition — no bee at
the queen and no bee anywhere — cannot hold while any scheduled wave has
not yet been released. -/
theorem hive_bees_prevent_win (s : Colony) (hid : Nat) (hp : PlaceObj)
    (b : Bee) (hreg : lookupKey s.placesReg PName.hive = some hid)
    (hgp : getPlace s.arena hid = some hp) (hb : b ∈ hp.bees) :
    b ∈ colony_bees s ∧ ¬ game_won s ∧
    (∀ hiveBees len tunnels food antReg,
      lookupKey (make_colony hiveBees len tunnels food antReg).placesReg
        PName.hive = some 0 ∧
      beesAt (make_colony hiveBees len tunnels food antReg) 0 = hiveBees) := by
  have hmem : b ∈ colony_bees s := by
    unfold colony_bees
    rw [List.mem_flatten]
    refine ⟨hp.bees, ?_, hb⟩
    rw [List.mem_map]
    refine ⟨(PName.hive, hid), lookupKey_mem _ _ _ hreg, ?_⟩
    simp [beesAt, hgp]
  refine ⟨hmem, ?_, ?_⟩
  · intro hw
    rw [hw.2] at hmem
    cases hmem
  · intro hiveBees len tunnels food antReg
    rcases make_colony_hive_registered hiveBees len tunnels food antReg
      with ⟨hL, hG⟩
    exact ⟨hL, by simp [beesAt, hG, hivePlace0]⟩

/-- A colony with one scheduled bee still waiting in the hive. -/
def colonyWithHiveBee : Colony :=
  make_colony [{ id := 0, armor := 3 }] 3 1 2 antTypesRegistry

theorem hive_bees_prevent_win_witness :
    ({ id := 0, armor := 3 } : Bee) ∈ colony_bees colonyWithHiveBee ∧
    ¬ game_won colonyWithHiveBee :=
  have h := hive_bees_prevent_win colonyWithHiveBee 0
    { pname := PName.hive, exit := none, entrance := none,
      bees := [{ id := 0, armor := 3 }], ant := none }
    { id := 0, armor := 3 } (by decide) (by decide) (by decide)
  ⟨h.1, h.2.1⟩

/-! ## Claim C7 — thrower targets lie within `[min_range, max_range]`

`nearest_bee` scans the entrance chain from the thrower's place toward
the hive, testing `min_range <= distance <= max_range and place.bees`.
`scanPlace s cur d` names the place reached after `d` entrance steps (or
`none` if the scan would have stopped at the hive or fallen off the
chain first), so "the target is `d` steps back" is
`scanPlace s startId d = some pid`. -/

def scanPlace (s : Colony) : Nat → Nat → Option Nat
  | cur, 0 =>
    if cur = s.hiveId then none
    else (getPlace s.arena cur).map (fun _ => cur)
  | cur, d + 1 =>
    if cur = s.hiveId then none
    else
      match (getPlace s.arena cur).bind (fun p => p.entrance) with
      | none => none
      | some e => scanPlace s e d

/-- The source's class range constants: `ThrowerAnt` 0..10, `LongThrower`
4..10, `ShortThrower` 0..2. -/
def ThrowerAnt.min_range : Nat := 0

def ThrowerAnt.max_range : Nat := 10

def LongThrower.min_range : Nat := 4

def LongThrower.max_range : Nat := 10

def ShortThrower.min_range : Nat := 0

def ShortThrower.max_range : Nat := 2

theorem nearestBeeAux_in_range (s : Colony) (minR maxR pick : Nat) :
    ∀ (fuel cur dist pid : Nat) (b : Bee),
      nearestBeeAux s minR maxR pick cur dist fuel = some (pid, b) →
      ∃ k, minR ≤ dist + k ∧ dist + k ≤ maxR ∧
        scanPlace s cur k = some pid ∧ b ∈ beesAt s pid := by
  intro fuel
  induction fuel with
  | zero => intro cur dist pid b h; cases h
  | succ m ih =>
    intro cur dist pid b h
    unfold nearestBeeAux at h
    split at h
    · cases h
    next hhive =>
      split at h
      next hg => cases h
      next p hg =>
        split at h
        next hrange =>
          refine ⟨0, by simpa using hrange.1, by simpa using hrange.2.1, ?_, ?_⟩
          · unfold scanPlace
            rw [if_neg hhive, hg]
            rcases Option.map_eq_some'.mp h with ⟨b', hb', hpb⟩
            simp only [Prod.mk.injEq] at hpb
            rw [hpb.1]
            rfl
          · rcases Option.map_eq_some'.mp h with ⟨b', hb', hpb⟩
            simp only [Prod.mk.injEq] at hpb
            have hmem : b' ∈ p.bees := by
              unfold random_or_none at hb'
              exact List.get?_mem hb'
            rw [← hpb.1, ← hpb.2]
            simpa [beesAt, hg] using hmem
        next hrange =>
          split at h
          · cases h
          next e he =>
            rcases ih e (dist + 1) pid b h with ⟨k, h1, h2, h3, h4⟩
            refine ⟨k + 1, ?_, ?_, ?_, h4⟩
            · omega
            · omega
            · unfold scanPlace
              rw [if_neg hhive, hg]
              simpa [he] using h3

theorem nearestBeeAux_none_of_empty (s : Colony) (minR maxR pick : Nat) :
    ∀ (fuel cur dist : Nat),
      (∀ d pid, scanPlace s cur d = some pid → minR ≤ dist + d →
        dist + d ≤ maxR → beesAt s pid = []) →
      nearestBeeAux s minR maxR pick cur dist fuel = none := by
  intro fuel
  induction fuel with
  | zero => intro cur dist hemp; rfl
  | succ m ih =>
    intro cur dist hemp
    unfold nearestBeeAux
    split
    · rfl
    next hhive =>
      split
      next hg => rfl
      next p hg =>
        have hnr : ¬(minR ≤ dist ∧ dist ≤ maxR ∧ p.bees ≠ []) := by
          rintro ⟨h1, h2, h3⟩
          apply h3
          have hscan : scanPlace s cur 0 = some cur := by
            unfold scanPlace
            rw [if_neg hhive, hg]
            rfl
          have := hemp 0 cur hscan (by omega) (by omega)
          simpa [beesAt, hg] using this
        rw [if_neg hnr]
        split
        · rfl
        next e he =>
          apply ih
          intro d pid hscan h1 h2
          apply hemp (d + 1) pid
          · unfold scanPlace
            rw [if_neg hhive, hg]
            simpa [he] using hscan
          · omega
          · omega

/-- Claim C7: whenever `nearest_bee` selects a target, the target bee
lies in a place exactly `d` entrance steps back for some
`min_range ≤ d ≤ max_range` — so a `ShortThrower` (0..2) never selects a
target more than 2 steps back and a `LongThrower` (4..10) never selects
one fewer than 4 steps back — and when no bee is in range
(every scanned place within the range bounds has an empty bee list),
no target is selected. -/
theorem nearest_bee_within_range (s : Colony)
    (startId minR maxR pick fuel : Nat) :
    (∀ pid b, nearest_bee s startId minR maxR pick fuel = some (pid, b) →
      ∃ d, minR ≤ d ∧ d ≤ maxR ∧ scanPlace s startId d = some pid ∧
        b ∈ beesAt s pid) ∧
    ((∀ d pid, scanPlace s startId d = some pid → minR ≤ d → d ≤ maxR →
        beesAt s pid = []) →
      nearest_bee s startId minR maxR pick fuel = none) := by
  constructor
  · intro pid b h
    rcases nearestBeeAux_in_range s minR maxR pick fuel startId 0 pid b h
      with ⟨k, h1, h2, h3, h4⟩
    exact ⟨k, by simpa using h1, by simpa using h2, h3, h4⟩
  · intro hemp
    apply nearestBeeAux_none_of_empty
    intro d pid hscan h1 h2
    exact hemp d pid hscan (by simpa using h1) (by simpa using h2)

/-- A colony with one bee two steps back from `tunnel_0_0`'s thrower
position (at `tunnel_0_2`), used to instantiate both conjuncts of the
range theorem: the Short thrower (0..2) finds it, the Long thrower
(4..10) does not. -/
def rangeColony : Colony :=
  { make_colony [] 3 1 2 antTypesRegistry with
    arena := (make_colony [] 3 1 2 antTypesRegistry).arena.map
      (fun p => if p.pname = PName.tunnel 0 2 then
        { p with bees := [{ id := 0, armor := 3 }] } else p) }

theorem nearest_bee_within_range_witness :
    (∃ d, ShortThrower.min_range ≤ d ∧ d ≤ ShortThrower.max_range ∧
      scanPlace rangeColony 2 d = some 4 ∧
      ({ id := 0, armor := 3 } : Bee) ∈ beesAt rangeColony 4) ∧
    nearest_bee rangeColony 2 LongThrower.min_range LongThrower.max_range
      0 9 = none := by
  constructor
  · exact (nearest_bee_within_range rangeColony 2 ShortThrower.min_range
      ShortThrower.max_range 0 9).1 4 { id := 0, armor := 3 } (by decide)
  · refine (nearest_bee_within_range rangeColony 2 LongThrower.min_range
      LongThrower.max_range 0 9).2 ?_
    have h0 : ∀ d, scanPlace rangeColony 0 d = none := by
      intro d
      cases d with
      | zero => rfl
      | succ m => rfl
    have h3 : ∀ d, scanPlace rangeColony 2 (d + 3) = none := by
      intro d
      show scanPlace rangeColony 0 d = none
      exact h0 d
    intro d pid hscan h1 h2
    simp only [LongThrower.min_range] at h1
    have hd : d = (d - 3) + 3 := by omega
    rw [hd, h3 (d - 3)] at hscan
    cases hscan

/-! ## Claim C2 — mutuality of exit/entrance links

`Place.__init__` wires `exit.entrance = self`, so the *latest* place
constructed with a given exit owns that exit's entrance.  With several
tunnels, every tunnel's first place shares the `'AntQueen'` place as its
exit, and each construction overwrites `AntQueen.entrance`; symmetry
(`A.exit == B ⇒ B.entrance == A`) therefore fails for all but the last
tunnel, and the entrance link is not "set once".  In a single-tunnel
layout no two places share an exit and symmetry holds after
configuration; the game operations never touch a link. -/

def exitAt (ar : List PlaceObj) (i : Nat) : Option Nat :=
  (getPlace ar i).bind (fun p => p.exit)

def entranceAt (ar : List PlaceObj) (i : Nat) : Option Nat :=
  (getPlace ar i).bind (fun p => p.entrance)

/-- A two-tunnel colony (tunnel length 1) for the C2 counterexample:
both `tunnel_0_0` (index 2) and `tunnel_1_0` (index 3) were constructed
with exit `AntQueen` (index 1). -/
def twoTunnelColony : Colony := make_colony [] 1 2 2 antTypesRegistry

/-- Counterexample to claim C2 as stated: in `twoTunnelColony`,
`tunnel_0_0.exit` is the `AntQueen` place but `AntQueen.entrance` is
`tunnel_1_0` (the later construction overwrote it), so the links are not
mutual and an entrance link changed after it was first set. -/
theorem exit_entrance_not_mutual :
    exitAt twoTunnelColony.arena 2 = some 1 ∧
    entranceAt twoTunnelColony.arena 1 = some 3 ∧
    entranceAt twoTunnelColony.arena 1 ≠ some 2 := by
  refine ⟨by decide, by decide, by decide⟩

/-- Link symmetry: every forward exit is answered by the matching back
entrance. -/
def LinksSym (ar : List PlaceObj) : Prop :=
  ∀ i j, exitAt ar i = some j → entranceAt ar j = some i

/-- No place exits into `x`. -/
def NoIncoming (ar : List PlaceObj) (x : Nat) : Prop :=
  ∀ i, exitAt ar i ≠ some x

/-- All exits point inside the arena. -/
def ExitsBounded (ar : List PlaceObj) : Prop :=
  ∀ i j, exitAt ar i = some j → j < ar.length

theorem exitAt_modify_entrance (ar : List PlaceObj) (j : Nat)
    (v : Option Nat) (i : Nat) :
    exitAt (modifyPlace ar j (fun p => { p with entrance := v })) i =
      exitAt ar i := by
  by_cases hij : j = i
  · subst hij
    cases hg : getPlace ar j with
    | none =>
      unfold modifyPlace
      unfold getPlace at hg
      rw [hg]
    | some p =>
      unfold exitAt
      rw [getPlace_modify_eq ar j p _ hg, hg]
      rfl
  · unfold exitAt
    rw [getPlace_modify_ne ar j i _ hij]

theorem entranceAt_modify_entrance_ne (ar : List PlaceObj) (j : Nat)
    (v : Option Nat) (i : Nat) (hij : j ≠ i) :
    entranceAt (modifyPlace ar j (fun p => { p with entrance := v })) i =
      entranceAt ar i := by
  unfold entranceAt
  rw [getPlace_modify_ne ar j i _ hij]

theorem entranceAt_modify_entrance_eq (ar : List PlaceObj) (j : Nat)
    (v : Option Nat) (p : PlaceObj) (hg : getPlace ar j = some p) :
    entranceAt (modifyPlace ar j (fun pl => { pl with entrance := v })) j =
      v := by
  unfold entranceAt
  rw [getPlace_modify_eq ar j p _ hg]
  rfl

theorem exitAt_append_lt (ar : List PlaceObj) (l : List PlaceObj) (i : Nat)
    (h : i < ar.length) : exitAt (ar ++ l) i = exitAt ar i := by
  unfold exitAt
  rw [getPlace_append_lt ar l i h]

theorem entranceAt_append_lt (ar : List PlaceObj) (l : List PlaceObj)
    (i : Nat) (h : i < ar.length) :
    entranceAt (ar ++ l) i = entranceAt ar i := by
  unfold entranceAt
  rw [getPlace_append_lt ar l i h]

theorem exitAt_none_of_ge (ar : List PlaceObj) (i : Nat)
    (h : ar.length ≤ i) : exitAt ar i = none := by
  unfold exitAt getPlace
  rw [List.get?_eq_none.mpr h]
  rfl

/-- The construction invariant used along one tunnel: symmetric links so
far, nothing exits into the pending exit place `e`, `e` is a valid
index, and all exits are valid indices. -/
def TunnelInv (ar : List PlaceObj) (e : Nat) : Prop :=
  LinksSym ar ∧ NoIncoming ar e ∧ e < ar.length ∧ ExitsBounded ar

theorem place_init_inv (ar : List PlaceObj) (name : PName) (e : Nat)
    (hinv : TunnelInv ar e) :
    TunnelInv (place_init ar name (some e)).1 ar.length ∧
    (place_init ar name (some e)).1.length = ar.length + 1 := by
  obtain ⟨hsym, hni, hel, hbd⟩ := hinv
  rw [place_init_some]
  simp only
  set newP := mkPlace name (some e) with hnewP
  have hgete : ∃ pe, getPlace (ar ++ [newP]) e = some pe := by
    rw [getPlace_append_lt ar [newP] e hel]
    cases hg : getPlace ar e with
    | none =>
      exfalso
      unfold getPlace at hg
      have := List.get?_eq_none.mp hg
      omega
    | some pe => exact ⟨pe, rfl⟩
  obtain ⟨pe, hpe⟩ := hgete
  have hexitEq : ∀ i, exitAt (modifyPlace (ar ++ [newP]) e
      (fun p => { p with entrance := some ar.length })) i =
      exitAt (ar ++ [newP]) i :=
    fun i => exitAt_modify_entrance (ar ++ [newP]) e (some ar.length) i
  have hlen : (modifyPlace (ar ++ [newP]) e
      (fun p => { p with entrance := some ar.length })).length =
      ar.length + 1 := by
    rw [modifyPlace_length]
    simp
  have hexitNew : exitAt (ar ++ [newP]) ar.length = some e := by
    unfold exitAt
    rw [getPlace_append_len]
    rfl
  have hexitOld : ∀ i, i < ar.length → exitAt (ar ++ [newP]) i = exitAt ar i :=
    fun i hi => exitAt_append_lt ar [newP] i hi
  have hexitHigh : ∀ i, ar.length + 1 ≤ i → exitAt (ar ++ [newP]) i = none := by
    intro i hi
    apply exitAt_none_of_ge
    simp only [List.length_append, List.length_singleton]
    omega
  refine ⟨⟨?_, ?_, ?_, ?_⟩, hlen⟩
  · -- symmetry
    intro i j hij
    rw [hexitEq i] at hij
    rcases Nat.lt_trichotomy i ar.length with hi | hi | hi
    · rw [hexitOld i hi] at hij
      have hj : j < ar.length := hbd i j hij
      have hje : j ≠ e := fun hc => hni i (hc ▸ hij)
      rw [entranceAt_modify_entrance_ne _ _ _ _ (Ne.symm hje),
        entranceAt_append_lt ar [newP] j hj]
      exact hsym i j hij
    · subst hi
      rw [hexitNew] at hij
      obtain rfl : j = e := by
        have := hij
        simp only [Option.some_inj] at this
        exact this.symm
      rw [entranceAt_modify_entrance_eq _ _ _ pe hpe]
    · rw [hexitHigh i hi] at hij
      cases hij
  · -- nothing exits into the new place
    intro i hc
    rw [hexitEq i] at hc
    rcases Nat.lt_trichotomy i ar.length with hi | hi | hi
    · rw [hexitOld i hi] at hc
      have := hbd i _ hc
      omega
    · subst hi
      rw [hexitNew] at hc
      have : ar.length = e := by simpa using hc.symm
      omega
    · rw [hexitHigh i hi] at hc
      cases hc
  · omega
  · -- exits bounded
    intro i j hij
    rw [hlen]
    rw [hexitEq i] at hij
    rcases Nat.lt_trichotomy i ar.length with hi | hi | hi
    · rw [hexitOld i hi] at hij
      have := hbd i j hij
      omega
    · subst hi
      rw [hexitNew] at hij
      have : e = j := by simpa using hij
      omega
    · rw [hexitHigh i hi] at hij
      cases hij

theorem register_place_inv (cs : ConfigState) (pid : Nat) (flag : Bool)
    (hinv : TunnelInv cs.arena pid) :
    TunnelInv (register_place cs pid flag).arena pid ∧
    (register_place cs pid flag).arena.length = cs.arena.length := by
  obtain ⟨hsym, hni, hlt, hbd⟩ := hinv
  unfold register_place
  cases flag with
  | false => exact ⟨⟨hsym, hni, hlt, hbd⟩, rfl⟩
  | true =>
    simp only [if_true]
    have hexit : ∀ i, exitAt (modifyPlace cs.arena pid
        (fun p => { p with entrance := some cs.hiveId })) i =
        exitAt cs.arena i :=
      fun i => exitAt_modify_entrance cs.arena pid (some cs.hiveId) i
    have hlen : (modifyPlace cs.arena pid
        (fun p => { p with entrance := some cs.hiveId })).length =
        cs.arena.length := modifyPlace_length _ _ _
    refine ⟨⟨?_, ?_, ?_, ?_⟩, hlen⟩
    · intro i j hij
      rw [hexit i] at hij
      have hj : j ≠ pid := fun hc => hni i (hc ▸ hij)
      rw [entranceAt_modify_entrance_ne _ _ _ _ (Ne.symm hj)]
      exact hsym i j hij
    · intro i hc
      rw [hexit i] at hc
      exact hni i hc
    · rw [hlen]; exact hlt
    · intro i j hij
      rw [hexit i] at hij
      rw [hlen]
      exact hbd i j hij

theorem buildTunnelSteps_inv (t : Nat) :
    ∀ (n : Nat) (cs : ConfigState) (e step : Nat),
      TunnelInv cs.arena e →
      LinksSym (buildTunnelSteps cs t e step n).arena := by
  intro n
  induction n with
  | zero => intro cs e step hinv; exact hinv.1
  | succ m ih =>
    intro cs e step hinv
    unfold buildTunnelSteps
    rw [place_init_some]
    simp only
    apply ih
    have h1 := place_init_inv cs.arena (PName.tunnel t step) e hinv
    rw [place_init_some] at h1
    simp only at h1
    have h2 := register_place_inv { cs with arena :=
      (modifyPlace (cs.arena ++ [mkPlace (PName.tunnel t step) (some e)]) e
        (fun p => { p with entrance := some cs.arena.length })) }
      cs.arena.length (decide (m = 0)) h1.1
    exact h2.1

/-- In a single-tunnel colony (`tunnels = 1`, the `test_layout` shape) of
any length, the configured link structure is symmetric. -/
theorem make_colony_single_tunnel_sym (hb : List Bee) (len food : Nat)
    (reg : List (String × AntKind)) :
    LinksSym (make_colony hb len 1 food reg).arena := by
  rw [make_colony_unfold]
  show LinksSym (buildTunnels 1 len (configBase hb) 0 1).arena
  have hb1 : buildTunnels 1 len (configBase hb) 0 1 =
      buildTunnelSteps (configBase hb) 0 1 0 len := rfl
  rw [hb1]
  apply buildTunnelSteps_inv
  have hno : ∀ i, exitAt (configBase hb).arena i = none := by
    intro i
    match i with
    | 0 => rfl
    | 1 => rfl
    | n + 2 => rfl
  refine ⟨?_, ?_, ?_, ?_⟩
  · intro i j hij
    rw [hno i] at hij
    cases hij
  · intro i hc
    rw [hno i] at hc
    cases hc
  · show 1 < 2
    decide
  · intro i j hij
    rw [hno i] at hij
    cases hij

/-! Frame lemmas: no game operation ever changes an exit or entrance
link. -/

theorem setPlace_links_eq (ar : List PlaceObj) (pid : Nat) (p p' : PlaceObj)
    (hg : getPlace ar pid = some p) (hx : p'.exit = p.exit)
    (hn : p'.entrance = p.entrance) (i : Nat) :
    exitAt (setPlace ar pid p') i = exitAt ar i ∧
    entranceAt (setPlace ar pid p') i = entranceAt ar i := by
  by_cases hip : pid = i
  · subst hip
    unfold exitAt entranceAt
    rw [getPlace_set_eq _ _ _ (getPlace_lt_length _ _ _ hg), hg]
    simp [hx, hn]
  · unfold exitAt entranceAt
    rw [getPlace_set_ne _ _ _ _ hip]
    exact ⟨rfl, rfl⟩

theorem modifyPlace_links (ar : List PlaceObj) (j : Nat)
    (f : PlaceObj → PlaceObj)
    (hf : ∀ p, (f p).exit = p.exit ∧ (f p).entrance = p.entrance) (i : Nat) :
    exitAt (modifyPlace ar j f) i = exitAt ar i ∧
    entranceAt (modifyPlace ar j f) i = entranceAt ar i := by
  unfold modifyPlace
  cases hg : ar.get? j with
  | none => exact ⟨rfl, rfl⟩
  | some p => exact setPlace_links_eq ar j p (f p) hg (hf p).1 (hf p).2 i

theorem add_insect_ant_fields (p : PlaceObj) (a : AntObj) (p' : PlaceObj)
    (h : add_insect_ant p a = Except.ok p') :
    p'.pname = p.pname ∧ p'.exit = p.exit ∧ p'.entrance = p.entrance ∧
    p'.bees = p.bees := by
  unfold add_insect_ant at h
  split at h
  · obtain rfl : { p with ant := some a } = p' := by
      simpa using h
    exact ⟨rfl, rfl, rfl, rfl⟩
  next b hb =>
    split at h
    · obtain rfl : ({ p with ant := some { b with contained := some a.data } } :
          PlaceObj) = p' := by
        simpa using h
      exact ⟨rfl, rfl, rfl, rfl⟩
    · split at h
      · obtain rfl : ({ p with
            ant := some { a with contained := some b.data } } : PlaceObj) = p' := by
          simpa using h
        exact ⟨rfl, rfl, rfl, rfl⟩
      · cases h

theorem remove_insect_ant_fields (p : PlaceObj) (aid : Nat) (p' : PlaceObj)
    (h : remove_insect_ant p aid = Except.ok p') :
    p'.pname = p.pname ∧ p'.exit = p.exit ∧ p'.entrance = p.entrance ∧
    p'.bees = p.bees := by
  unfold remove_insect_ant at h
  split at h
  · cases h
  next b hb =>
    split at h
    · split at h
      · obtain rfl : p = p' := by simpa using h
        exact ⟨rfl, rfl, rfl, rfl⟩
      · split at h
        · split at h
          next c hc =>
            obtain rfl : ({ p with ant := some { data := c, contained := none } } :
                PlaceObj) = p' := by simpa using h
            exact ⟨rfl, rfl, rfl, rfl⟩
          next hc =>
            obtain rfl : ({ p with ant := none } : PlaceObj) = p' := by
              simpa using h
            exact ⟨rfl, rfl, rfl, rfl⟩
        · obtain rfl : ({ p with ant := none } : PlaceObj) = p' := by
            simpa using h
          exact ⟨rfl, rfl, rfl, rfl⟩
    · cases h

theorem reduce_armor_slot_fields (p : PlaceObj) (amount : Int) (p' : PlaceObj)
    (h : reduce_armor_slot p amount = Except.ok p') :
    p'.pname = p.pname ∧ p'.exit = p.exit ∧ p'.entrance = p.entrance ∧
    p'.bees = p.bees := by
  unfold reduce_armor_slot at h
  split at h
  · cases h
  next b hb =>
    split at h
    · rcases remove_insect_ant_fields _ _ _ h with ⟨h1, h2, h3, h4⟩
      exact ⟨h1, h2, h3, h4⟩
    · obtain rfl : ({ p with ant := some { b with
          data := { b.data with armor := b.data.armor - amount } } } :
          PlaceObj) = p' := by simpa using h
      exact ⟨rfl, rfl, rfl, rfl⟩

theorem deploy_ant_links (s : Colony) (pn : PName) (tn : String) (i : Nat) :
    exitAt ((deploy_ant s pn tn).1).arena i = exitAt s.arena i ∧
    entranceAt ((deploy_ant s pn tn).1).arena i = entranceAt s.arena i := by
  unfold deploy_ant
  split
  · exact ⟨rfl, rfl⟩
  next k hk =>
    split
    · exact ⟨rfl, rfl⟩
    · split
      · exact ⟨rfl, rfl⟩
      next pid hpid =>
        split
        · exact ⟨rfl, rfl⟩
        next p hp =>
          split
          next e hadd => exact ⟨rfl, rfl⟩
          next p' hadd =>
            rcases add_insect_ant_fields p _ p' hadd with ⟨_, hx, hn, _⟩
            exact setPlace_links_eq s.arena pid p p' hp hx hn i

theorem remove_ant_links (s : Colony) (pn : PName) (i : Nat) :
    exitAt ((remove_ant s pn).1).arena i = exitAt s.arena i ∧
    entranceAt ((remove_ant s pn).1).arena i = entranceAt s.arena i := by
  unfold remove_ant
  split
  · exact ⟨rfl, rfl⟩
  next pid hpid =>
    split
    · exact ⟨rfl, rfl⟩
    next p hp =>
      split
      · exact ⟨rfl, rfl⟩
      next b hb =>
        split
        next p' hrem =>
          rcases remove_insect_ant_fields p _ p' hrem with ⟨_, hx, hn, _⟩
          exact setPlace_links_eq s.arena pid p p' hp hx hn i
        · exact ⟨rfl, rfl⟩

theorem reduce_bee_armor_links (s : Colony) (pid bid : Nat) (amount : Int)
    (i : Nat) :
    exitAt (reduce_bee_armor s pid bid amount).arena i = exitAt s.arena i ∧
    entranceAt (reduce_bee_armor s pid bid amount).arena i =
      entranceAt s.arena i := by
  unfold reduce_bee_armor
  split
  · exact ⟨rfl, rfl⟩
  next p hp =>
    split
    · exact ⟨rfl, rfl⟩
    next b hb =>
      have hx : (hitPlace p b bid amount).exit = p.exit := by
        unfold hitPlace
        split <;> rfl
      have hn : (hitPlace p b bid amount).entrance = p.entrance := by
        unfold hitPlace
        split <;> rfl
      exact setPlace_links_eq s.arena pid p _ hp hx hn i

theorem throw_at_links (s : Colony) (damage : Int)
    (tgt : Option (Nat × Bee)) (i : Nat) :
    exitAt (throw_at s damage tgt).arena i = exitAt s.arena i ∧
    entranceAt (throw_at s damage tgt).arena i = entranceAt s.arena i := by
  cases tgt with
  | none => exact ⟨rfl, rfl⟩
  | some t => exact reduce_bee_armor_links s t.1 t.2.id damage i

theorem thrower_action_links (s : Colony) (pid minR maxR pick fuel i : Nat) :
    exitAt (thrower_action s pid minR maxR pick fuel).arena i =
      exitAt s.arena i ∧
    entranceAt (thrower_action s pid minR maxR pick fuel).arena i =
      entranceAt s.arena i := by
  unfold thrower_action
  split
  · exact ⟨rfl, rfl⟩
  · exact throw_at_links s _ _ i

theorem doubleAt_links (s : Colony) (qpid pid i : Nat) :
    exitAt (doubleAt s qpid pid).arena i = exitAt s.arena i ∧
    entranceAt (doubleAt s qpid pid).arena i = entranceAt s.arena i := by
  unfold doubleAt
  split
  · exact ⟨rfl, rfl⟩
  · split
    · exact ⟨rfl, rfl⟩
    next p hp =>
      split
      · exact ⟨rfl, rfl⟩
      next a ha =>
        split
        · exact ⟨rfl, rfl⟩
        next qp hqp =>
          split
          · exact ⟨rfl, rfl⟩
          next qobj hqobj =>
            have h1 := setPlace_links_eq s.arena pid p
              { p with ant := some (double_damage qobj.data a).2 } hp rfl rfl i
            have h2 := modifyPlace_links
              (setPlace s.arena pid { p with ant := some (double_damage qobj.data a).2 })
              qpid (fun pp => { pp with ant := some { qobj with
                data := (double_damage qobj.data a).1 } })
              (fun p => ⟨rfl, rfl⟩) i
            exact ⟨h2.1.trans h1.1, h2.2.trans h1.2⟩

theorem doubleLoop_links (s : Colony) (qpid : Nat) :
    ∀ (fuel : Nat) (cur : Option Nat) (i : Nat),
      exitAt (doubleLoop s qpid cur fuel).arena i = exitAt s.arena i ∧
      entranceAt (doubleLoop s qpid cur fuel).arena i = entranceAt s.arena i := by
  intro fuel
  induction fuel generalizing s with
  | zero => intro cur i; cases cur <;> exact ⟨rfl, rfl⟩
  | succ m ih =>
    intro cur i
    cases cur with
    | none => exact ⟨rfl, rfl⟩
    | some pid =>
      show exitAt (doubleLoop (doubleAt s qpid pid) qpid
        (placeExit (doubleAt s qpid pid) pid) m).arena i = _ ∧ _
      have h1 := ih (doubleAt s qpid pid) (placeExit (doubleAt s qpid pid) pid) i
      have h2 := doubleAt_links s qpid pid i
      exact ⟨h1.1.trans h2.1, h1.2.trans h2.2⟩

theorem queen_action_links (s : Colony) (qpid pick fuel i : Nat) :
    exitAt ((queen_action s qpid pick fuel).1).arena i = exitAt s.arena i ∧
    entranceAt ((queen_action s qpid pick fuel).1).arena i =
      entranceAt s.arena i := by
  unfold queen_action
  split
  · exact ⟨rfl, rfl⟩
  next p hp =>
    split
    · exact ⟨rfl, rfl⟩
    next q hq =>
      split
      · split
        next p' hred =>
          rcases reduce_armor_slot_fields p _ p' hred with ⟨_, hx, hn, _⟩
          exact setPlace_links_eq s.arena qpid p p' hp hx hn i
        · exact ⟨rfl, rfl⟩
      · cases hqr : s.queenRef with
        | place cq =>
          simp only [hqr]
          have hwrap : ({ s with queenRef := QueenRef.queenPlace cq qpid } :
              Colony).arena = s.arena := rfl
          have h1 := thrower_action_links (doubleLoop
            { s with queenRef := QueenRef.queenPlace cq qpid } qpid
            (some (queenWalkBack { s with queenRef := QueenRef.queenPlace cq qpid }
              qpid fuel)) fuel) qpid 0 10 pick fuel i
          have h2 := doubleLoop_links
            { s with queenRef := QueenRef.queenPlace cq qpid } qpid fuel
            (some (queenWalkBack { s with queenRef := QueenRef.queenPlace cq qpid }
              qpid fuel)) i
          exact ⟨h1.1.trans h2.1, h1.2.trans h2.2⟩
        | queenPlace a b =>
          simp only [hqr]
          have h1 := thrower_action_links (doubleLoop s qpid
            (some (queenWalkBack s qpid fuel)) fuel) qpid 0 10 pick fuel i
          have h2 := doubleLoop_links s qpid fuel
            (some (queenWalkBack s qpid fuel)) i
          exact ⟨h1.1.trans h2.1, h1.2.trans h2.2⟩

/-- Claim C2, amended: in a colony whose layout is a single tunnel (the
`test_layout` shape, where no two Locations share a forward exit), the
links are mutual after configuration — `A.exit = B` implies
`B.entrance = A` — and they stay that way at every later point of
execution because no game operation (deploy, remove, bee damage, queen
action) ever changes an exit or entrance link.  (With several tunnels
the tunnel-start places share the goal place as exit and each later
construction overwrites the goal's entrance, so mutuality holds only for
the last-built tunnel; and a Location's entrance is assigned after its
own construction — by its successor's construction or bee-entrance
registration — rather than "once at its construction".) -/
theorem single_tunnel_links_mutual (hb : List Bee) (len food : Nat)
    (reg : List (String × AntKind)) :
    (∀ i j, exitAt (make_colony hb len 1 food reg).arena i = some j →
      entranceAt (make_colony hb len 1 food reg).arena j = some i) ∧
    (∀ s pn tn i, exitAt ((deploy_ant s pn tn).1).arena i = exitAt s.arena i ∧
      entranceAt ((deploy_ant s pn tn).1).arena i = entranceAt s.arena i) ∧
    (∀ s pn i, exitAt ((remove_ant s pn).1).arena i = exitAt s.arena i ∧
      entranceAt ((remove_ant s pn).1).arena i = entranceAt s.arena i) ∧
    (∀ s pid bid amt i,
      exitAt (reduce_bee_armor s pid bid amt).arena i = exitAt s.arena i ∧
      entranceAt (reduce_bee_armor s pid bid amt).arena i =
        entranceAt s.arena i) ∧
    (∀ s qpid pick fuel i,
      exitAt ((queen_action s qpid pick fuel).1).arena i = exitAt s.arena i ∧
      entranceAt ((queen_action s qpid pick fuel).1).arena i =
        entranceAt s.arena i) :=
  ⟨make_colony_single_tunnel_sym hb len food reg,
   fun s pn tn i => deploy_ant_links s pn tn i,
   fun s pn i => remove_ant_links s pn i,
   fun s pid bid amt i => reduce_bee_armor_links s pid bid amt i,
   fun s qpid pick fuel i => queen_action_links s qpid pick fuel i⟩

theorem single_tunnel_links_mutual_witness :
    entranceAt colony3.arena 1 = some 2 ∧
    exitAt ((deploy_ant colony3 (PName.tunnel 0 0) "Harvester").1).arena 2 =
      exitAt colony3.arena 2 :=
  ⟨(single_tunnel_links_mutual [] 3 2 antTypesRegistry).1 2 1 (by decide),
   ((single_tunnel_links_mutual [] 3 2 antTypesRegistry).2.1 colony3
     (PName.tunnel 0 0) "Harvester" 2).1⟩

/-! ## Claim C5 — the Queen's damage doubling

The expected per-ant effect of one pass of the Queen's walk, relative to
her `doubled_ants` list `d` and her own id `qid`: damage is doubled
exactly when the ant's id is fresh (`∉ d`) and not the Queen's own, and —
for a container — the contained ant likewise. -/

def doubledData (d : List Nat) (qid : Nat) (x : AntData) : AntData :=
  if x.id ∉ d ∧ x.id ≠ qid then { x with damage := x.damage * 2 } else x

def doubledObj (d : List Nat) (qid : Nat) (a : AntObj) : AntObj :=
  { data := doubledData d qid a.data,
    contained :=
      match a.contained with
      | some c => some (if isContainer a.data.kind then doubledData d qid c else c)
      | none => none }

/-- The object identities living in an ant slot: the slot ant's id and,
when it contains one, the contained ant's id. -/
def antObjIds (a : AntObj) : List Nat :=
  a.data.id :: (match a.contained with | some c => [c.id] | none => [])

def antIdsAt (s : Colony) (i : Nat) : List Nat :=
  match slotAnt s i with
  | none => []
  | some a => antObjIds a

/-- Distinct Python objects have distinct identities: within a place the
slot ant and its contained ant differ, and across places all ant ids are
disjoint.  (Quantifiers are bounded by the arena so the predicate is
decidable on concrete colonies; out-of-range indices hold no ants.) -/
def UniqueAntIds (s : Colony) : Prop :=
  ∀ i, i < s.arena.length → ∀ j, j < s.arena.length →
    (antIdsAt s i).Nodup ∧
    (i ≠ j → ∀ x, x ∈ antIdsAt s i → x ∉ antIdsAt s j)

set_option synthInstance.maxSize 512 in
instance decidableUniqueAntIds (s : Colony) : Decidable (UniqueAntIds s) :=
  inferInstanceAs (Decidable (∀ i, i < s.arena.length →
    ∀ j, j < s.arena.length →
    (antIdsAt s i).Nodup ∧
    (i ≠ j → ∀ x, x ∈ antIdsAt s i → x ∉ antIdsAt s j)))

theorem slotAnt_lt_length (s : Colony) (i : Nat) (a : AntObj)
    (h : slotAnt s i = some a) : i < s.arena.length := by
  unfold slotAnt at h
  cases hg : getPlace s.arena i with
  | none => rw [hg] at h; cases h
  | some p => exact getPlace_lt_length _ _ _ hg

theorem unique_nodup_at (s : Colony) (hu : UniqueAntIds s) (i : Nat)
    (a : AntObj) (h : slotAnt s i = some a) : (antObjIds a).Nodup := by
  have hi := slotAnt_lt_length s i a h
  have := (hu i hi i hi).1
  unfold antIdsAt at this
  rw [h] at this
  exact this

theorem unique_disjoint (s : Colony) (hu : UniqueAntIds s) (i j : Nat)
    (hij : i ≠ j) (a b : AntObj) (ha : slotAnt s i = some a)
    (hb : slotAnt s j = some b) :
    ∀ x, x ∈ antObjIds a → x ∉ antObjIds b := by
  have hi := slotAnt_lt_length s i a ha
  have hj := slotAnt_lt_length s j b hb
  have := (hu i hi j hj).2 hij
  unfold antIdsAt at this
  rw [ha, hb] at this
  exact this

theorem uniqueAntIds_transport (s s' : Colony) (hu : UniqueAntIds s)
    (hids : ∀ r, antIdsAt s' r = antIdsAt s r)
    (hlen : s'.arena.length = s.arena.length) : UniqueAntIds s' := by
  intro i hi j hj
  rw [hlen] at hi hj
  rw [hids i, hids j]
  exact hu i hi j hj

theorem contained_ne_self (s : Colony) (hu : UniqueAntIds s) (i : Nat)
    (a : AntObj) (ha : slotAnt s i = some a) (c : AntData)
    (hc : a.contained = some c) : c.id ≠ a.data.id := by
  have hnd := unique_nodup_at s hu i a ha
  unfold antObjIds at hnd
  rw [hc] at hnd
  rcases List.nodup_cons.mp hnd with ⟨hna, _⟩
  intro hcontra
  exact hna (by simp [hcontra])

/-! Behaviour of `double_damage` relative to `doubledData`/`doubledObj`. -/

/-- `double_damage` computes exactly the `doubledObj` transform of the
visited ant, provided the contained ant (if any) is a distinct object
from the slot ant. -/
theorem double_damage_snd_eq (q : AntData) (a : AntObj)
    (hcne : ∀ c, a.contained = some c → c.id ≠ a.data.id) :
    (double_damage q a).2 = doubledObj q.doubled q.id a := by
  obtain ⟨ad, aco⟩ := a
  cases aco with
  | none =>
    by_cases hs : ad.id ∉ q.doubled ∧ ad.id ≠ q.id
    · simp [double_damage, double_damage_contained, double_damage_self,
        doubledObj, doubledData, hs]
    · simp [double_damage, double_damage_contained, double_damage_self,
        doubledObj, doubledData, hs]
  | some c =>
    have hcna : ad.id ≠ c.id := fun h => hcne c rfl h.symm
    by_cases hcf : isContainer ad.kind ∧ c.id ∉ q.doubled ∧ c.id ≠ q.id
    · by_cases hs : ad.id ∉ q.doubled ∧ ad.id ≠ q.id
      · have hs' : ad.id ∉ q.doubled ++ [c.id] ∧ ad.id ≠ q.id :=
          ⟨by simp [hs.1, hcna], hs.2⟩
        simp [double_damage, double_damage_contained, double_damage_self,
          doubledObj, doubledData, hcf, hcf.1, hs, hs', hs.1, hs.2]
      · have hs' : ¬((ad.id ∉ q.doubled ∧ ¬ad.id = c.id) ∧ ¬ad.id = q.id) := by
          intro hcon
          exact hs ⟨hcon.1.1, hcon.2⟩
        simp [double_damage, double_damage_contained, double_damage_self,
          doubledObj, doubledData, hcf, hcf.1, hs, hs']
    · by_cases hic : isContainer ad.kind
      · have hcc : ¬(c.id ∉ q.doubled ∧ c.id ≠ q.id) := by
          intro hcon
          exact hcf ⟨hic, hcon.1, hcon.2⟩
        by_cases hs : ad.id ∉ q.doubled ∧ ad.id ≠ q.id
        · simp [double_damage, double_damage_contained, double_damage_self,
            doubledObj, doubledData, hcf, hic, hcc, hs]
        · simp [double_damage, double_damage_contained, double_damage_self,
            doubledObj, doubledData, hcf, hic, hcc, hs]
      · by_cases hs : ad.id ∉ q.doubled ∧ ad.id ≠ q.id
        · simp [double_damage, double_damage_contained, double_damage_self,
            doubledObj, doubledData, hcf, hic, hs]
        · simp [double_damage, double_damage_contained, double_damage_self,
            doubledObj, doubledData, hcf, hic, hs]

/-- What `double_damage` does to the queen's state: her `doubled_ants`
grows by ids of the visited ant (and nothing else), every non-self id of
the visited ant ends up recorded, and her other fields are untouched. -/
theorem double_damage_fst_spec (q : AntData) (a : AntObj) :
    ∃ ext, (double_damage q a).1 = { q with doubled := q.doubled ++ ext } ∧
      (∀ x, x ∈ ext → x ∈ antObjIds a) ∧
      (a.data.id ≠ q.id → a.data.id ∈ q.doubled ++ ext) ∧
      (∀ c, a.contained = some c → isContainer a.data.kind → c.id ≠ q.id →
        c.id ∈ q.doubled ++ ext) := by
  obtain ⟨ad, aco⟩ := a
  cases aco with
  | none =>
    by_cases hs : ad.id ∉ q.doubled ∧ ad.id ≠ q.id
    · refine ⟨[ad.id], ?_, ?_, ?_, ?_⟩
      · simp [double_damage, double_damage_contained, double_damage_self, hs]
      · intro x hx
        simp only [List.mem_singleton] at hx
        simp [antObjIds, hx]
      · intro _
        simp
      · intro c hc
        cases hc
    · refine ⟨[], ?_, ?_, ?_, ?_⟩
      · simp [double_damage, double_damage_contained, double_damage_self, hs]
      · intro x hx
        cases hx
      · intro hne
        have hin : ad.id ∈ q.doubled := by
          by_contra hmem
          exact hs ⟨hmem, hne⟩
        simp [hin]
      · intro c hc
        cases hc
  | some c =>
    by_cases hcf : isContainer ad.kind ∧ c.id ∉ q.doubled ∧ c.id ≠ q.id
    · by_cases hs : ad.id ∉ q.doubled ++ [c.id] ∧ ad.id ≠ q.id
      · have h1 : ad.id ∉ q.doubled := fun hm => hs.1 (List.mem_append.mpr (Or.inl hm))
        have h2 : ¬ ad.id = c.id := fun he => hs.1 (by simp [he])
        refine ⟨[c.id, ad.id], ?_, ?_, ?_, ?_⟩
        · simp [double_damage, double_damage_contained, double_damage_self,
            hcf, h1, h2, hs.2]
        · intro x hx
          simp only [List.mem_cons, List.mem_singleton] at hx
          rcases hx with hx | hx | hx
          · simp [antObjIds, hx]
          · simp [antObjIds, hx]
          · cases hx
        · intro _
          simp
        · intro c' hc' _ _
          obtain rfl : c' = c := by simpa using hc'.symm
          simp
      · have hs2 : ¬((ad.id ∉ q.doubled ∧ ¬ad.id = c.id) ∧ ¬ad.id = q.id) := by
          intro hcon
          apply hs
          refine ⟨?_, hcon.2⟩
          intro hm
          rcases List.mem_append.mp hm with hm | hm
          · exact hcon.1.1 hm
          · simp only [List.mem_singleton] at hm
            exact hcon.1.2 hm
        refine ⟨[c.id], ?_, ?_, ?_, ?_⟩
        · simp [double_damage, double_damage_contained, double_damage_self,
            hcf, hs2]
        · intro x hx
          simp only [List.mem_singleton] at hx
          simp [antObjIds, hx]
        · intro hne
          have hin : ad.id ∈ q.doubled ++ [c.id] := by
            by_contra hmem
            exact hs ⟨hmem, hne⟩
          simpa using hin
        · intro c' hc' _ _
          obtain rfl : c' = c := by simpa using hc'.symm
          simp
    · by_cases hs : ad.id ∉ q.doubled ∧ ad.id ≠ q.id
      · refine ⟨[ad.id], ?_, ?_, ?_, ?_⟩
        · simp [double_damage, double_damage_contained, double_damage_self,
            hcf, hs]
        · intro x hx
          simp only [List.mem_singleton] at hx
          simp [antObjIds, hx]
        · intro _
          simp
        · intro c' hc' hic hcne
          obtain rfl : c' = c := by simpa using hc'.symm
          have hic2 : isContainer ad.kind := hic
          have hin : c'.id ∈ q.doubled := by
            by_contra hmem
            exact hcf ⟨hic2, hmem, hcne⟩
          simp [hin]
      · refine ⟨[], ?_, ?_, ?_, ?_⟩
        · simp [double_damage, double_damage_contained, double_damage_self,
            hcf, hs]
        · intro x hx
          cases hx
        · intro hne
          have hin : ad.id ∈ q.doubled := by
            by_contra hmem
            exact hs ⟨hmem, hne⟩
          simp [hin]
        · intro c' hc' hic hcne
          obtain rfl : c' = c := by simpa using hc'.symm
          have hic2 : isContainer ad.kind := hic
          have hin : c'.id ∈ q.doubled := by
            by_contra hmem
            exact hcf ⟨hic2, hmem, hcne⟩
          simp [hin]

theorem doubledData_id (d : List Nat) (qid : Nat) (x : AntData) :
    (doubledData d qid x).id = x.id := by
  unfold doubledData
  split <;> rfl

theorem doubledData_kind (d : List Nat) (qid : Nat) (x : AntData) :
    (doubledData d qid x).kind = x.kind := by
  unfold doubledData
  split <;> rfl

theorem doubledData_eq_self (d : List Nat) (qid : Nat) (x : AntData)
    (h : x.id ∈ d ∨ x.id = qid) : doubledData d qid x = x := by
  unfold doubledData
  rw [if_neg]
  rintro ⟨h1, h2⟩
  rcases h with h | h
  · exact h1 h
  · exact h2 h

theorem doubledObj_ids (d : List Nat) (qid : Nat) (a : AntObj) :
    antObjIds (doubledObj d qid a) = antObjIds a := by
  obtain ⟨ad, aco⟩ := a
  cases aco with
  | none => simp [doubledObj, antObjIds, doubledData_id]
  | some c =>
    simp only [doubledObj, antObjIds, doubledData_id]
    by_cases hic : isContainer ad.kind
    · simp [hic, doubledData_id]
    · simp [hic]

theorem doubledObj_eq_self (d : List Nat) (qid : Nat) (a : AntObj)
    (h1 : a.data.id ∈ d ∨ a.data.id = qid)
    (h2 : ∀ c, a.contained = some c → isContainer a.data.kind →
      (c.id ∈ d ∨ c.id = qid)) : doubledObj d qid a = a := by
  obtain ⟨ad, aco⟩ := a
  cases aco with
  | none => simp [doubledObj, doubledData_eq_self _ _ _ h1]
  | some c =>
    simp only [doubledObj, doubledData_eq_self _ _ _ h1]
    by_cases hic : isContainer ad.kind
    · simp [hic, doubledData_eq_self _ _ _ (h2 c rfl hic)]
    · simp [hic]

/-- A second doubling pass over an already-recorded ant changes
nothing. -/
theorem doubledObj_idem (d d' : List Nat) (qid : Nat) (a : AntObj)
    (h1 : a.data.id ∈ d' ∨ a.data.id = qid)
    (h2 : ∀ c, a.contained = some c → isContainer a.data.kind →
      (c.id ∈ d' ∨ c.id = qid)) :
    doubledObj d' qid (doubledObj d qid a) = doubledObj d qid a := by
  apply doubledObj_eq_self
  · rw [show (doubledObj d qid a).data.id = a.data.id from doubledData_id d qid a.data]
    exact h1
  · intro c' hc' hic'
    obtain ⟨ad, aco⟩ := a
    cases aco with
    | none =>
      simp [doubledObj] at hc'
    | some c =>
      simp only [doubledObj] at hc' hic'
      rw [doubledData_kind] at hic'
      simp only [Option.some_inj] at hc'
      subst hc'
      by_cases hcase : isContainer ad.kind
      · rw [if_pos hcase, doubledData_id]
        exact h2 c rfl hcase
      · exact absurd hic' hcase

theorem double_damage_self_snd_ids (q : AntData) (a : AntObj) :
    antObjIds (double_damage_self q a).2 = antObjIds a := by
  unfold double_damage_self antObjIds
  split <;> rfl

theorem double_damage_contained_snd_ids (q : AntData) (a : AntObj) :
    antObjIds (double_damage_contained q a).2 = antObjIds a := by
  obtain ⟨ad, aco⟩ := a
  cases aco with
  | none => rfl
  | some c =>
    by_cases hc : isContainer ad.kind ∧ c.id ∉ q.doubled ∧ c.id ≠ q.id
    · simp [double_damage_contained, antObjIds, hc]
    · simp [double_damage_contained, antObjIds, hc]

theorem double_damage_snd_ids (q : AntData) (a : AntObj) :
    antObjIds (double_damage q a).2 = antObjIds a := by
  unfold double_damage
  rw [double_damage_self_snd_ids, double_damage_contained_snd_ids]

/-! The effect of one `doubleAt` step on the colony. -/

theorem doubleAt_self (s : Colony) (qpid : Nat) : doubleAt s qpid qpid = s := by
  simp [doubleAt]

theorem doubleAt_none_place (s : Colony) (qpid pid : Nat) (hpq : pid ≠ qpid)
    (hp : getPlace s.arena pid = none) : doubleAt s qpid pid = s := by
  simp [doubleAt, hpq, hp]

theorem doubleAt_none_ant (s : Colony) (qpid pid : Nat) (hpq : pid ≠ qpid)
    (p : PlaceObj) (hp : getPlace s.arena pid = some p) (ha : p.ant = none) :
    doubleAt s qpid pid = s := by
  simp [doubleAt, hpq, hp, ha]

theorem doubleAt_none_qplace (s : Colony) (qpid pid : Nat) (hpq : pid ≠ qpid)
    (p : PlaceObj) (hp : getPlace s.arena pid = some p) (a : AntObj)
    (ha : p.ant = some a) (hqp : getPlace s.arena qpid = none) :
    doubleAt s qpid pid = s := by
  simp [doubleAt, hpq, hp, ha, hqp]

theorem doubleAt_none_qant (s : Colony) (qpid pid : Nat) (hpq : pid ≠ qpid)
    (p : PlaceObj) (hp : getPlace s.arena pid = some p) (a : AntObj)
    (ha : p.ant = some a) (qp : PlaceObj)
    (hqp : getPlace s.arena qpid = some qp) (hqa : qp.ant = none) :
    doubleAt s qpid pid = s := by
  simp [doubleAt, hpq, hp, ha, hqp, hqa]

/-- The state written by a non-degenerate `doubleAt` step: the visited
slot gets the doubled ant, the queen's slot gets her updated
`doubled_ants`. -/
def doubleWrite (s : Colony) (qpid pid : Nat) (p : PlaceObj) (a qobj : AntObj) :
    Colony :=
  let ar1 := setPlace s.arena pid { p with ant := some (double_damage qobj.data a).2 }
  let ar2 := modifyPlace ar1 qpid
    (fun pp => { pp with ant := some { qobj with data := (double_damage qobj.data a).1 } })
  { s with arena := ar2 }

theorem doubleAt_closed (s : Colony) (qpid pid : Nat) (hpq : pid ≠ qpid)
    (p : PlaceObj) (hp : getPlace s.arena pid = some p) (a : AntObj)
    (ha : p.ant = some a) (qp : PlaceObj)
    (hqp : getPlace s.arena qpid = some qp) (qobj : AntObj)
    (hqa : qp.ant = some qobj) :
    doubleAt s qpid pid = doubleWrite s qpid pid p a qobj := by
  simp [doubleAt, doubleWrite, hpq, hp, ha, hqp, hqa]

theorem doubleWrite_arena (s : Colony) (qpid pid : Nat) (p : PlaceObj)
    (a qobj : AntObj) :
    (doubleWrite s qpid pid p a qobj).arena =
      modifyPlace
        (setPlace s.arena pid { p with ant := some (double_damage qobj.data a).2 })
        qpid
        (fun pp => { pp with ant := some { qobj with data := (double_damage qobj.data a).1 } }) := rfl

theorem doubleWrite_get_other (s : Colony) (qpid pid : Nat) (p : PlaceObj)
    (a qobj : AntObj) (r : Nat) (hr1 : r ≠ pid) (hr2 : r ≠ qpid) :
    getPlace (doubleWrite s qpid pid p a qobj).arena r = getPlace s.arena r := by
  unfold doubleWrite
  simp only
  rw [getPlace_modify_ne _ _ _ _ (Ne.symm hr2),
    getPlace_set_ne _ _ _ _ (Ne.symm hr1)]

theorem doubleWrite_slot_pid (s : Colony) (qpid pid : Nat) (hpq : pid ≠ qpid)
    (p : PlaceObj) (hp : getPlace s.arena pid = some p) (a qobj : AntObj) :
    slotAnt (doubleWrite s qpid pid p a qobj) pid =
      some (double_damage qobj.data a).2 := by
  unfold doubleWrite slotAnt
  simp only
  rw [getPlace_modify_ne _ _ _ _ (Ne.symm hpq),
    getPlace_set_eq _ _ _ (getPlace_lt_length _ _ _ hp)]
  rfl

theorem doubleWrite_slot_qpid (s : Colony) (qpid pid : Nat) (hpq : pid ≠ qpid)
    (p : PlaceObj) (a qobj : AntObj) (qp : PlaceObj)
    (hqp : getPlace s.arena qpid = some qp) :
    slotAnt (doubleWrite s qpid pid p a qobj) qpid =
      some { qobj with data := (double_damage qobj.data a).1 } := by
  unfold doubleWrite slotAnt
  simp only
  have hq2 : getPlace (setPlace s.arena pid
      { p with ant := some (double_damage qobj.data a).2 }) qpid = some qp := by
    rw [getPlace_set_ne _ _ _ _ hpq]
    exact hqp
  rw [getPlace_modify_eq _ _ qp _ hq2]
  rfl

/-- Either `doubleAt` is the identity (degenerate inputs), or it rewrites
exactly the visited slot and the queen's slot. -/
theorem doubleAt_cases (s : Colony) (qpid pid : Nat) :
    doubleAt s qpid pid = s ∨
    ∃ (p : PlaceObj) (a : AntObj) (qp : PlaceObj) (qobj : AntObj),
      pid ≠ qpid ∧ getPlace s.arena pid = some p ∧ p.ant = some a ∧
      getPlace s.arena qpid = some qp ∧ qp.ant = some qobj ∧
      doubleAt s qpid pid = doubleWrite s qpid pid p a qobj := by
  by_cases hpq : pid = qpid
  · left
    rw [hpq]
    exact doubleAt_self s qpid
  · cases hp : getPlace s.arena pid with
    | none => exact Or.inl (doubleAt_none_place s qpid pid hpq hp)
    | some p =>
      cases ha : p.ant with
      | none => exact Or.inl (doubleAt_none_ant s qpid pid hpq p hp ha)
      | some a =>
        cases hqp : getPlace s.arena qpid with
        | none => exact Or.inl (doubleAt_none_qplace s qpid pid hpq p hp a ha hqp)
        | some qp =>
          cases hqa : qp.ant with
          | none =>
            exact Or.inl (doubleAt_none_qant s qpid pid hpq p hp a ha qp hqp hqa)
          | some qobj =>
            refine Or.inr ⟨p, a, qp, qobj, hpq, ?_, ?_, ?_, ?_,
              doubleAt_closed s qpid pid hpq p hp a ha qp hqp qobj hqa⟩
            · rfl
            · exact ha
            · rfl
            · exact hqa

theorem setPlace_length (ar : List PlaceObj) (i : Nat) (p : PlaceObj) :
    (setPlace ar i p).length = ar.length := by
  simp [setPlace]

theorem doubleAt_len (s : Colony) (qpid pid : Nat) :
    (doubleAt s qpid pid).arena.length = s.arena.length := by
  rcases doubleAt_cases s qpid pid with h | ⟨p, a, qp, qobj, _, _, _, _, _, h⟩
  · rw [h]
  · rw [h]
    unfold doubleWrite
    simp only
    rw [modifyPlace_length, setPlace_length]

theorem getPlace_bees_set (ar : List PlaceObj) (pid : Nat) (p P : PlaceObj)
    (hg : getPlace ar pid = some p) (hb : P.bees = p.bees) (r : Nat) :
    ((getPlace (setPlace ar pid P) r).map (fun x => x.bees)).getD [] =
      ((getPlace ar r).map (fun x => x.bees)).getD [] := by
  by_cases hr : pid = r
  · subst hr
    rw [getPlace_set_eq _ _ _ (getPlace_lt_length _ _ _ hg), hg]
    simp [hb]
  · rw [getPlace_set_ne _ _ _ _ hr]

theorem getPlace_bees_modify (ar : List PlaceObj) (j : Nat)
    (f : PlaceObj → PlaceObj) (hf : ∀ p, (f p).bees = p.bees) (r : Nat) :
    ((getPlace (modifyPlace ar j f) r).map (fun x => x.bees)).getD [] =
      ((getPlace ar r).map (fun x => x.bees)).getD [] := by
  unfold modifyPlace
  cases hg : ar.get? j with
  | none => rfl
  | some p => exact getPlace_bees_set ar j p (f p) hg (hf p) r

theorem doubleAt_bees (s : Colony) (qpid pid : Nat) (r : Nat) :
    beesAt (doubleAt s qpid pid) r = beesAt s r := by
  rcases doubleAt_cases s qpid pid with h | ⟨p, a, qp, qobj, hpq, hp, ha, hqp, hqa, h⟩
  · rw [h]
  · rw [h]
    unfold beesAt
    rw [doubleWrite_arena]
    have hm := getPlace_bees_modify
      (setPlace s.arena pid { p with ant := some (double_damage qobj.data a).2 })
      qpid
      (fun pp => { pp with ant := some { qobj with data := (double_damage qobj.data a).1 } })
      (fun _ => rfl) r
    have hst := getPlace_bees_set s.arena pid p
      { p with ant := some (double_damage qobj.data a).2 } hp rfl r
    rw [hm, hst]

theorem doubleAt_ids (s : Colony) (qpid pid : Nat) (r : Nat) :
    antIdsAt (doubleAt s qpid pid) r = antIdsAt s r := by
  rcases doubleAt_cases s qpid pid with h | ⟨p, a, qp, qobj, hpq, hp, ha, hqp, hqa, h⟩
  · rw [h]
  · by_cases hr1 : r = pid
    · subst hr1
      unfold antIdsAt
      rw [h, doubleWrite_slot_pid s qpid r hpq p hp a qobj]
      have hslot : slotAnt s r = some a := by
        unfold slotAnt
        rw [hp]
        exact ha
      rw [hslot]
      show antObjIds (double_damage qobj.data a).2 = antObjIds a
      exact double_damage_snd_ids qobj.data a
    · by_cases hr2 : r = qpid
      · subst hr2
        unfold antIdsAt
        rw [h, doubleWrite_slot_qpid s r pid hpq p a qobj qp hqp]
        have hslot : slotAnt s r = some qobj := by
          unfold slotAnt
          rw [hqp]
          exact hqa
        rw [hslot]
        show antObjIds { qobj with data := (double_damage qobj.data a).1 } =
          antObjIds qobj
        obtain ⟨ext, hext, _, _, _⟩ := double_damage_fst_spec qobj.data a
        rw [hext]
        rfl
      · unfold antIdsAt slotAnt
        rw [h, doubleWrite_get_other s qpid pid p a qobj r hr1 hr2]

theorem doubleAt_hive (s : Colony) (qpid pid : Nat) :
    (doubleAt s qpid pid).hiveId = s.hiveId := by
  rcases doubleAt_cases s qpid pid with h | ⟨p, a, qp, qobj, _, _, _, _, _, h⟩
  · rw [h]
  · rw [h]
    rfl

theorem placeExit_eq_exitAt (s : Colony) (pid : Nat) :
    placeExit s pid = exitAt s.arena pid := rfl

theorem placeEntrance_eq_entranceAt (s : Colony) (pid : Nat) :
    placeEntrance s pid = entranceAt s.arena pid := rfl

theorem exitChain_congr (s s' : Colony)
    (h : ∀ i, placeExit s' i = placeExit s i) :
    ∀ (fuel : Nat) (cur : Option Nat),
      exitChain s' cur fuel = exitChain s cur fuel := by
  intro fuel
  induction fuel with
  | zero => intro cur; cases cur <;> rfl
  | succ m ih =>
    intro cur
    cases cur with
    | none => rfl
    | some pid =>
      show pid :: exitChain s' (placeExit s' pid) m =
        pid :: exitChain s (placeExit s pid) m
      rw [h pid, ih]

theorem queenWalkBack_congr (s s' : Colony)
    (he : ∀ i, placeEntrance s' i = placeEntrance s i)
    (hh : s'.hiveId = s.hiveId) :
    ∀ (fuel cur : Nat), queenWalkBack s' cur fuel = queenWalkBack s cur fuel := by
  intro fuel
  induction fuel with
  | zero => intro cur; rfl
  | succ m ih =>
    intro cur
    have hl : queenWalkBack s' cur (m + 1) =
        (match placeEntrance s' cur with
         | none => cur
         | some e => if e = s'.hiveId then cur else queenWalkBack s' e m) := rfl
    have hr : queenWalkBack s cur (m + 1) =
        (match placeEntrance s cur with
         | none => cur
         | some e => if e = s.hiveId then cur else queenWalkBack s e m) := rfl
    rw [hl, hr, he cur, hh]
    cases placeEntrance s cur with
    | none => rfl
    | some e =>
      by_cases hhe : e = s.hiveId
      · simp [hhe]
      · simp only [if_neg hhe]
        exact ih e

theorem queenPath_congr (s s' : Colony) (qpid fuel : Nat)
    (hx : ∀ i, placeExit s' i = placeExit s i)
    (he : ∀ i, placeEntrance s' i = placeEntrance s i)
    (hh : s'.hiveId = s.hiveId) :
    queenPath s' qpid fuel = queenPath s qpid fuel := by
  unfold queenPath
  rw [queenWalkBack_congr s s' he hh fuel qpid, exitChain_congr s s' hx fuel]

theorem antIdsAt_of_slot (s : Colony) (i : Nat) (a : AntObj)
    (h : slotAnt s i = some a) : antIdsAt s i = antObjIds a := by
  unfold antIdsAt
  rw [h]

theorem mem_antIdsAt_slot (s : Colony) (i : Nat) (x : Nat)
    (h : x ∈ antIdsAt s i) : ∃ a, slotAnt s i = some a := by
  unfold antIdsAt at h
  cases hs : slotAnt s i with
  | none => rw [hs] at h; cases h
  | some a => exact ⟨a, rfl⟩

theorem doubledObj_congr (d d' : List Nat) (qid : Nat) (a : AntObj)
    (h1 : a.data.id ∈ d ↔ a.data.id ∈ d')
    (h2 : ∀ c, a.contained = some c → (c.id ∈ d ↔ c.id ∈ d')) :
    doubledObj d qid a = doubledObj d' qid a := by
  obtain ⟨ad, aco⟩ := a
  have hd : doubledData d qid ad = doubledData d' qid ad := by
    unfold doubledData
    simp only at h1
    by_cases hm : ad.id ∈ d
    · rw [if_neg (by simp [hm]), if_neg (by simp [h1.mp hm])]
    · by_cases hq : ad.id = qid
      · rw [if_neg (by simp [hq]), if_neg (by simp [hq])]
      · rw [if_pos ⟨hm, hq⟩, if_pos ⟨fun hc => hm (h1.mpr hc), hq⟩]
  cases aco with
  | none => simp [doubledObj, hd]
  | some c =>
    have hc2 := h2 c rfl
    have hdc : doubledData d qid c = doubledData d' qid c := by
      unfold doubledData
      by_cases hm : c.id ∈ d
      · rw [if_neg (by simp [hm]), if_neg (by simp [hc2.mp hm])]
      · by_cases hq : c.id = qid
        · rw [if_neg (by simp [hq]), if_neg (by simp [hq])]
        · rw [if_pos ⟨hm, hq⟩, if_pos ⟨fun hcc => hm (hc2.mpr hcc), hq⟩]
    simp only [doubledObj, hd]
    by_cases hic : isContainer ad.kind
    · simp [hic, hdc]
    · simp [hic]

theorem doubleLoop_step (s : Colony) (qpid pid : Nat) (m : Nat) :
    doubleLoop s qpid (some pid) (m + 1) =
      doubleLoop (doubleAt s qpid pid) qpid
        (placeExit (doubleAt s qpid pid) pid) m := rfl

theorem doubleLoop_zero (s : Colony) (qpid : Nat) (cur : Option Nat) :
    doubleLoop s qpid cur 0 = s := by
  cases cur <;> rfl

theorem doubleLoop_none (s : Colony) (qpid : Nat) (fuel : Nat) :
    doubleLoop s qpid none fuel = s := by
  cases fuel <;> rfl

theorem exitChain_cons (s : Colony) (pid : Nat) (fuel : Nat) :
    exitChain s (some pid) (fuel + 1) =
      pid :: exitChain s (placeExit s pid) fuel := rfl

theorem exitChain_zero (s : Colony) (cur : Option Nat) :
    exitChain s cur 0 = [] := by
  cases cur <;> rfl

theorem exitChain_none (s : Colony) (fuel : Nat) :
    exitChain s none fuel = [] := by
  cases fuel <;> rfl

/-- The full characterisation of the queen's forward doubling walk:
every visited slot becomes its `doubledObj` image relative to the
queen's `doubled_ants` at the start of the walk and her id; everything
else is untouched; the queen's record grows by exactly the visited ids,
covering every visited non-self id; and identities, bees, lengths and
the hive are preserved. -/
theorem doubleLoop_spec (qpid : Nat) :
    ∀ (fuel : Nat) (s : Colony) (cur : Option Nat) (qobj : AntObj)
      (d0 : List Nat),
      slotAnt s qpid = some qobj →
      UniqueAntIds s →
      (exitChain s cur fuel).Nodup →
      (∀ pid, pid ∈ exitChain s cur fuel → pid ≠ qpid →
        ∀ x, x ∈ antIdsAt s pid → (x ∈ qobj.data.doubled ↔ x ∈ d0)) →
      (∀ pid, pid ∈ exitChain s cur fuel → pid ≠ qpid →
        slotAnt (doubleLoop s qpid cur fuel) pid =
          (slotAnt s pid).map (doubledObj d0 qobj.data.id)) ∧
      (∀ r, r ≠ qpid → r ∉ exitChain s cur fuel →
        getPlace (doubleLoop s qpid cur fuel).arena r = getPlace s.arena r) ∧
      (∃ dbl, slotAnt (doubleLoop s qpid cur fuel) qpid =
          some { qobj with data := { qobj.data with doubled := dbl } } ∧
        (∀ x, x ∈ qobj.data.doubled → x ∈ dbl) ∧
        (∀ x, x ∈ dbl → x ∈ qobj.data.doubled ∨
          ∃ pid, pid ∈ exitChain s cur fuel ∧ pid ≠ qpid ∧
            x ∈ antIdsAt s pid) ∧
        (∀ pid, pid ∈ exitChain s cur fuel → pid ≠ qpid →
          ∀ a, slotAnt s pid = some a →
          (a.data.id ≠ qobj.data.id → a.data.id ∈ dbl) ∧
          (∀ c, a.contained = some c → isContainer a.data.kind →
            c.id ≠ qobj.data.id → c.id ∈ dbl))) ∧
      ((doubleLoop s qpid cur fuel).arena.length = s.arena.length) ∧
      (∀ r, antIdsAt (doubleLoop s qpid cur fuel) r = antIdsAt s r) ∧
      (∀ r, beesAt (doubleLoop s qpid cur fuel) r = beesAt s r) ∧
      (doubleLoop s qpid cur fuel).hiveId = s.hiveId := by
  intro fuel
  induction fuel with
  | zero =>
    intro s cur qobj d0 hq hu hnd halign
    rw [doubleLoop_zero, exitChain_zero]
    refine ⟨?_, ?_, ⟨qobj.data.doubled, hq, ?_, ?_, ?_⟩, rfl, ?_, ?_, rfl⟩
    · intro pid hpid
      cases hpid
    · intro r _ _
      rfl
    · intro x hx
      exact hx
    · intro x hx
      exact Or.inl hx
    · intro pid hpid
      cases hpid
    · intro r
      rfl
    · intro r
      rfl
  | succ m ih =>
    intro s cur qobj d0 hq hu hnd halign
    cases cur with
    | none =>
      rw [doubleLoop_none, exitChain_none] at *
      refine ⟨?_, ?_, ⟨qobj.data.doubled, hq, ?_, ?_, ?_⟩, rfl, ?_, ?_, rfl⟩
      · intro pid hpid
        cases hpid
      · intro r _ _
        rfl
      · intro x hx
        exact hx
      · intro x hx
        exact Or.inl hx
      · intro pid hpid
        cases hpid
      · intro r
        rfl
      · intro r
        rfl
    | some pid =>
      rw [doubleLoop_step]
      rw [exitChain_cons] at hnd halign ⊢
      have hndc := List.nodup_cons.mp hnd
      by_cases hpq : pid = qpid
      · -- the queen's own place: the step is the identity
        subst hpq
        rw [doubleAt_self]
        have hihm := ih s (placeExit s pid) qobj d0 hq hu hndc.2
          (fun pid' hp' hne x hx => halign pid' (List.mem_cons_of_mem _ hp') hne x hx)
        rcases hihm with ⟨c1, c2, ⟨dbl, c3a, c3b, c3c, c3d⟩, c4, c5, c6, c7⟩
        refine ⟨?_, ?_, ⟨dbl, c3a, c3b, ?_, ?_⟩, c4, c5, c6, c7⟩
        · intro pid' hp' hne
          rcases List.mem_cons.mp hp' with h | h
          · exact absurd h hne
          · exact c1 pid' h hne
        · intro r hr hnr
          exact c2 r hr (fun hc => hnr (List.mem_cons_of_mem _ hc))
        · intro x hx
          rcases c3c x hx with h | ⟨pid', h1, h2, h3⟩
          · exact Or.inl h
          · exact Or.inr ⟨pid', List.mem_cons_of_mem _ h1, h2, h3⟩
        · intro pid' hp' hne a ha
          rcases List.mem_cons.mp hp' with h | h
          · exact absurd h hne
          · exact c3d pid' h hne a ha
      · -- a different place
        obtain ⟨qp, hqp, hqa⟩ : ∃ qp, getPlace s.arena qpid = some qp ∧
            qp.ant = some qobj := by
          unfold slotAnt at hq
          cases hg : getPlace s.arena qpid with
          | none => rw [hg] at hq; cases hq
          | some qp => rw [hg] at hq; exact ⟨qp, rfl, hq⟩
        cases hp : getPlace s.arena pid with
        | none =>
          rw [doubleAt_none_place s qpid pid hpq hp]
          have hihm := ih s (placeExit s pid) qobj d0 hq hu hndc.2
            (fun pid' hp' hne x hx => halign pid' (List.mem_cons_of_mem _ hp') hne x hx)
          rcases hihm with ⟨c1, c2, ⟨dbl, c3a, c3b, c3c, c3d⟩, c4, c5, c6, c7⟩
          have hslotnone : slotAnt s pid = none := by
            unfold slotAnt
            rw [hp]
            rfl
          refine ⟨?_, ?_, ⟨dbl, c3a, c3b, ?_, ?_⟩, c4, c5, c6, c7⟩
          · intro pid' hp' hne
            rcases List.mem_cons.mp hp' with h | h
            · subst h
              by_cases hmem : pid' ∈ exitChain s (placeExit s pid') m
              · exact (c1 pid' hmem hne).trans (by rw [hslotnone])
              · have := c2 pid' hne hmem
                unfold slotAnt
                rw [this, hp]
                rfl
            · exact c1 pid' h hne
          · intro r hr hnr
            exact c2 r hr (fun hc => hnr (List.mem_cons_of_mem _ hc))
          · intro x hx
            rcases c3c x hx with h | ⟨pid', h1, h2, h3⟩
            · exact Or.inl h
            · exact Or.inr ⟨pid', List.mem_cons_of_mem _ h1, h2, h3⟩
          · intro pid' hp' hne a ha
            rcases List.mem_cons.mp hp' with h | h
            · subst h
              rw [hslotnone] at ha
              cases ha
            · exact c3d pid' h hne a ha
        | some p =>
          cases hpa : p.ant with
          | none =>
            rw [doubleAt_none_ant s qpid pid hpq p hp hpa]
            have hihm := ih s (placeExit s pid) qobj d0 hq hu hndc.2
              (fun pid' hp' hne x hx => halign pid' (List.mem_cons_of_mem _ hp') hne x hx)
            rcases hihm with ⟨c1, c2, ⟨dbl, c3a, c3b, c3c, c3d⟩, c4, c5, c6, c7⟩
            have hslotnone : slotAnt s pid = none := by
              unfold slotAnt
              rw [hp]
              exact hpa
            refine ⟨?_, ?_, ⟨dbl, c3a, c3b, ?_, ?_⟩, c4, c5, c6, c7⟩
            · intro pid' hp' hne
              rcases List.mem_cons.mp hp' with h | h
              · subst h
                by_cases hmem : pid' ∈ exitChain s (placeExit s pid') m
                · exact (c1 pid' hmem hne).trans (by rw [hslotnone])
                · have := c2 pid' hne hmem
                  unfold slotAnt
                  rw [this]
                  unfold slotAnt at hslotnone
                  rw [hslotnone]
                  rfl
              · exact c1 pid' h hne
            · intro r hr hnr
              exact c2 r hr (fun hc => hnr (List.mem_cons_of_mem _ hc))
            · intro x hx
              rcases c3c x hx with h | ⟨pid', h1, h2, h3⟩
              · exact Or.inl h
              · exact Or.inr ⟨pid', List.mem_cons_of_mem _ h1, h2, h3⟩
            · intro pid' hp' hne a ha
              rcases List.mem_cons.mp hp' with h | h
              · subst h
                rw [hslotnone] at ha
                cases ha
              · exact c3d pid' h hne a ha
          | some a =>
            -- the interesting step: the slot at pid and the queen's
            -- doubled list are rewritten
            have hclosed := doubleAt_closed s qpid pid hpq p hp a hpa qp hqp
              qobj hqa
            have hslota : slotAnt s pid = some a := by
              unfold slotAnt
              rw [hp]
              exact hpa
            obtain ⟨ext, hext, hextmem, hselfmem, hcontmem⟩ :=
              double_damage_fst_spec qobj.data a
            have hxlinks : ∀ i, placeExit (doubleAt s qpid pid) i =
                placeExit s i := fun i => (doubleAt_links s qpid pid i).1
            have hids : ∀ r, antIdsAt (doubleAt s qpid pid) r = antIdsAt s r :=
              doubleAt_ids s qpid pid
            have hlen : (doubleAt s qpid pid).arena.length = s.arena.length :=
              doubleAt_len s qpid pid
            have hbees : ∀ r, beesAt (doubleAt s qpid pid) r = beesAt s r :=
              doubleAt_bees s qpid pid
            have hhive : (doubleAt s qpid pid).hiveId = s.hiveId :=
              doubleAt_hive s qpid pid
            have hchain1 : ∀ c, exitChain (doubleAt s qpid pid) c m =
                exitChain s c m :=
              fun c => exitChain_congr s (doubleAt s qpid pid) hxlinks m c
            have hcur1 : placeExit (doubleAt s qpid pid) pid = placeExit s pid :=
              hxlinks pid
            have hu1 : UniqueAntIds (doubleAt s qpid pid) :=
              uniqueAntIds_transport s (doubleAt s qpid pid) hu hids hlen
            have hq1 : slotAnt (doubleAt s qpid pid) qpid =
                some { qobj with data := (double_damage qobj.data a).1 } := by
              rw [hclosed]
              exact doubleWrite_slot_qpid s qpid pid hpq p a qobj qp hqp
            have hslot1 : slotAnt (doubleAt s qpid pid) pid =
                some (double_damage qobj.data a).2 := by
              rw [hclosed]
              exact doubleWrite_slot_pid s qpid pid hpq p hp a qobj
            have hother : ∀ r, r ≠ pid → r ≠ qpid →
                getPlace (doubleAt s qpid pid).arena r = getPlace s.arena r := by
              intro r h1 h2
              rw [hclosed]
              exact doubleWrite_get_other s qpid pid p a qobj r h1 h2
            have hslotother : ∀ r, r ≠ pid → r ≠ qpid →
                slotAnt (doubleAt s qpid pid) r = slotAnt s r := by
              intro r h1 h2
              unfold slotAnt
              rw [hother r h1 h2]
            -- freshness: ids at tail places are disjoint from ids at pid
            have hfresh : ∀ pid', pid' ∈ exitChain s (placeExit s pid) m →
                ∀ x, x ∈ antIdsAt s pid' → x ∉ antObjIds a := by
              intro pid' hp' x hx
              have hne : pid' ≠ pid := fun hc => hndc.1 (hc ▸ hp')
              obtain ⟨b, hb⟩ := mem_antIdsAt_slot s pid' x hx
              have hdisj := unique_disjoint s hu pid' pid hne b a hb hslota
              rw [antIdsAt_of_slot s pid' b hb] at hx
              exact hdisj x hx
            have hextsub : ∀ x, x ∈ ext → x ∈ antObjIds a := hextmem
            -- the updated queen's doubled list and its membership relation
            have hq1d : ({ qobj with data := (double_damage qobj.data a).1 } :
                AntObj).data.doubled = qobj.data.doubled ++ ext := by
              rw [hext]
            have halign1 : ∀ pid', pid' ∈ exitChain (doubleAt s qpid pid)
                (placeExit (doubleAt s qpid pid) pid) m → pid' ≠ qpid →
                ∀ x, x ∈ antIdsAt (doubleAt s qpid pid) pid' →
                (x ∈ ({ qobj with data := (double_damage qobj.data a).1 } :
                  AntObj).data.doubled ↔ x ∈ d0) := by
              intro pid' hp' hne x hx
              rw [hcur1, hchain1] at hp'
              rw [hids] at hx
              have hxa : x ∉ antObjIds a := hfresh pid' hp' x hx
              have hxext : x ∉ ext := fun hc => hxa (hextsub x hc)
              rw [hq1d]
              rw [List.mem_append]
              constructor
              · intro hm
                rcases hm with hm | hm
                · exact (halign pid' (List.mem_cons_of_mem _ hp') hne x hx).mp hm
                · exact absurd hm hxext
              · intro hm
                exact Or.inl
                  ((halign pid' (List.mem_cons_of_mem _ hp') hne x hx).mpr hm)
            have hnd1 : (exitChain (doubleAt s qpid pid)
                (placeExit (doubleAt s qpid pid) pid) m).Nodup := by
              rw [hcur1, hchain1]
              exact hndc.2
            have hihm := ih (doubleAt s qpid pid)
              (placeExit (doubleAt s qpid pid) pid)
              { qobj with data := (double_damage qobj.data a).1 } d0 hq1 hu1
              hnd1 halign1
            rcases hihm with ⟨c1, c2, ⟨dbl, c3a, c3b, c3c, c3d⟩, c4, c5, c6, c7⟩
            -- re-express the tail chain in terms of s
            rw [hcur1] at c1 c2 c3a c3c c3d c4 c5 c6 c7
            rw [hchain1] at c1 c2 c3c c3d
            rw [hcur1]
            have hqid1 : ({ qobj with data := (double_damage qobj.data a).1 } :
                AntObj).data.id = qobj.data.id := by
              rw [hext]
            refine ⟨?_, ?_, ?_, ?_, ?_, ?_, ?_⟩
            · -- the transform on every chain place
              intro pid' hp' hne
              rcases List.mem_cons.mp hp' with h | h
              · subst h
                have hnotin : pid' ∉ exitChain s (placeExit s pid') m := hndc.1
                have hget := c2 pid' hne hnotin
                have : slotAnt (doubleLoop (doubleAt s qpid pid') qpid
                    (placeExit s pid') m) pid' =
                    slotAnt (doubleAt s qpid pid') pid' := by
                  unfold slotAnt
                  rw [hget]
                rw [this, hslot1, hslota]
                have hcne : ∀ c, a.contained = some c → c.id ≠ a.data.id :=
                  contained_ne_self s hu pid' a hslota
                rw [double_damage_snd_eq qobj.data a hcne]
                have hcongr := doubledObj_congr qobj.data.doubled d0
                  qobj.data.id a ?_ ?_
                · rw [hcongr]
                  rfl
                · have hxa : a.data.id ∈ antIdsAt s pid' := by
                    rw [antIdsAt_of_slot s pid' a hslota]
                    exact List.mem_cons_self _ _
                  exact halign pid' (List.mem_cons_self _ _) hne a.data.id hxa
                · intro c hc
                  have hxc : c.id ∈ antIdsAt s pid' := by
                    rw [antIdsAt_of_slot s pid' a hslota]
                    unfold antObjIds
                    rw [hc]
                    simp
                  exact halign pid' (List.mem_cons_self _ _) hne c.id hxc
              · rw [c1 pid' h hne, hqid1]
                rw [hslotother pid' (fun hc => hndc.1 (hc ▸ h)) hne]
            · -- untouched places
              intro r hr hnr
              have h1 : r ≠ pid := fun hc => hnr (hc ▸ List.mem_cons_self _ _)
              have h2 : r ∉ exitChain s (placeExit s pid) m :=
                fun hc => hnr (List.mem_cons_of_mem _ hc)
              rw [c2 r hr h2]
              exact hother r h1 hr
            · -- the queen's final doubled list
              refine ⟨dbl, ?_, ?_, ?_, ?_⟩
              · have := c3a
                rw [hext] at this
                exact this
              · intro x hx
                apply c3b
                rw [hq1d, List.mem_append]
                exact Or.inl hx
              · intro x hx
                rcases c3c x hx with h | ⟨pid', h1, h2, h3⟩
                · rw [hq1d, List.mem_append] at h
                  rcases h with h | h
                  · exact Or.inl h
                  · refine Or.inr ⟨pid, List.mem_cons_self _ _, hpq, ?_⟩
                    rw [antIdsAt_of_slot s pid a hslota]
                    exact hextsub x h
                · rw [hids] at h3
                  exact Or.inr ⟨pid', List.mem_cons_of_mem _ h1, h2, h3⟩
              · intro pid' hp' hne a' ha'
                rcases List.mem_cons.mp hp' with h | h
                · subst h
                  rw [hslota] at ha'
                  obtain rfl : a = a' := by simpa using ha'
                  constructor
                  · intro hne'
                    apply c3b
                    rw [hq1d]
                    exact hselfmem hne'
                  · intro c hc hic hcne'
                    apply c3b
                    rw [hq1d]
                    exact hcontmem c hc hic hcne'
                · have hne2 : pid' ≠ pid := fun hc => hndc.1 (hc ▸ h)
                  have := c3d pid' h hne a' (by rw [hslotother pid' hne2 hne]; exact ha')
                  rw [hqid1] at this
                  exact this
            · rw [c4, hlen]
            · intro r
              rw [c5 r, hids r]
            · intro r
              rw [c6 r, hbees r]
            · rw [c7, hhive]

/-! Frame lemmas for the thrower phase: throwing only rewrites bee lists,
so ant slots, identities, arena length and the hive survive it. -/

theorem hitPlace_ant (p : PlaceObj) (b : Bee) (bid : Nat) (amount : Int) :
    (hitPlace p b bid amount).ant = p.ant := by
  unfold hitPlace
  split <;> rfl

theorem slotAnt_setPlace_sameAnt (s : Colony) (pid : Nat) (p P : PlaceObj)
    (hp : getPlace s.arena pid = some p) (hP : P.ant = p.ant) (r : Nat) :
    slotAnt { s with arena := setPlace s.arena pid P } r = slotAnt s r := by
  unfold slotAnt
  by_cases h : r = pid
  · subst h
    have hlt := getPlace_lt_length s.arena r p hp
    show (getPlace (setPlace s.arena r P) r).bind (fun q => q.ant) =
      (getPlace s.arena r).bind (fun q => q.ant)
    rw [getPlace_set_eq s.arena r P hlt, hp]
    simp [hP]
  · show (getPlace (setPlace s.arena pid P) r).bind (fun q => q.ant) =
      (getPlace s.arena r).bind (fun q => q.ant)
    rw [getPlace_set_ne s.arena pid r P (fun hc => h hc.symm)]

theorem reduce_bee_armor_slotAnt (s : Colony) (pid bid : Nat) (amount : Int)
    (r : Nat) :
    slotAnt (reduce_bee_armor s pid bid amount) r = slotAnt s r := by
  unfold reduce_bee_armor
  cases hp : getPlace s.arena pid with
  | none => rfl
  | some p =>
    show slotAnt (match p.bees.find? (fun b => b.id == bid) with
      | none => s
      | some b =>
        { s with arena := setPlace s.arena pid (hitPlace p b bid amount) }) r =
      slotAnt s r
    cases hb : p.bees.find? (fun b => b.id == bid) with
    | none => rfl
    | some b =>
      exact slotAnt_setPlace_sameAnt s pid p (hitPlace p b bid amount) hp
        (hitPlace_ant p b bid amount) r

theorem reduce_bee_armor_len (s : Colony) (pid bid : Nat) (amount : Int) :
    (reduce_bee_armor s pid bid amount).arena.length = s.arena.length := by
  unfold reduce_bee_armor
  cases hp : getPlace s.arena pid with
  | none => rfl
  | some p =>
    show (match p.bees.find? (fun (b : Bee) => b.id == bid) with
      | none => s
      | some b =>
        { s with arena := setPlace s.arena pid (hitPlace p b bid amount) }
      ).arena.length = s.arena.length
    cases hb : p.bees.find? (fun b => b.id == bid) with
    | none => rfl
    | some b => exact setPlace_length s.arena pid _

theorem reduce_bee_armor_hive (s : Colony) (pid bid : Nat) (amount : Int) :
    (reduce_bee_armor s pid bid amount).hiveId = s.hiveId := by
  unfold reduce_bee_armor
  cases hp : getPlace s.arena pid with
  | none => rfl
  | some p =>
    show (match p.bees.find? (fun (b : Bee) => b.id == bid) with
      | none => s
      | some b =>
        { s with arena := setPlace s.arena pid (hitPlace p b bid amount) }
      ).hiveId = s.hiveId
    cases hb : p.bees.find? (fun b => b.id == bid) with
    | none => rfl
    | some b => rfl

theorem throw_at_slotAnt (s : Colony) (damage : Int) (t : Option (Nat × Bee))
    (r : Nat) : slotAnt (throw_at s damage t) r = slotAnt s r := by
  cases t with
  | none => rfl
  | some tb => exact reduce_bee_armor_slotAnt s tb.1 tb.2.id damage r

theorem throw_at_len (s : Colony) (damage : Int) (t : Option (Nat × Bee)) :
    (throw_at s damage t).arena.length = s.arena.length := by
  cases t with
  | none => rfl
  | some tb => exact reduce_bee_armor_len s tb.1 tb.2.id damage

theorem throw_at_hive (s : Colony) (damage : Int) (t : Option (Nat × Bee)) :
    (throw_at s damage t).hiveId = s.hiveId := by
  cases t with
  | none => rfl
  | some tb => exact reduce_bee_armor_hive s tb.1 tb.2.id damage

theorem thrower_action_slotAnt (s : Colony) (pid minR maxR pick fuel r : Nat) :
    slotAnt (thrower_action s pid minR maxR pick fuel) r = slotAnt s r := by
  unfold thrower_action
  cases ha : slotAnt s pid with
  | none => rfl
  | some a => exact throw_at_slotAnt s a.data.damage _ r

theorem thrower_action_len (s : Colony) (pid minR maxR pick fuel : Nat) :
    (thrower_action s pid minR maxR pick fuel).arena.length =
      s.arena.length := by
  unfold thrower_action
  cases ha : slotAnt s pid with
  | none => rfl
  | some a => exact throw_at_len s a.data.damage _

theorem thrower_action_hive (s : Colony) (pid minR maxR pick fuel : Nat) :
    (thrower_action s pid minR maxR pick fuel).hiveId = s.hiveId := by
  unfold thrower_action
  cases ha : slotAnt s pid with
  | none => rfl
  | some a => exact throw_at_hive s a.data.damage _

theorem antIdsAt_congr_slot (s s' : Colony)
    (h : ∀ r, slotAnt s' r = slotAnt s r) (r : Nat) :
    antIdsAt s' r = antIdsAt s r := by
  unfold antIdsAt
  rw [h r]

/-! The true queen's activation in closed form. -/

/-- The one-time wrapping of `colony.queen` into a `QueenPlace` performed
at the start of the true queen's action (line 658-660). -/
def wrapQueen (s : Colony) (qpid : Nat) : Colony :=
  match s.queenRef with
  | QueenRef.place cq => { s with queenRef := QueenRef.queenPlace cq qpid }
  | QueenRef.queenPlace _ _ => s

theorem wrapQueen_arena (s : Colony) (qpid : Nat) :
    (wrapQueen s qpid).arena = s.arena := by
  unfold wrapQueen
  cases s.queenRef <;> rfl

theorem wrapQueen_hive (s : Colony) (qpid : Nat) :
    (wrapQueen s qpid).hiveId = s.hiveId := by
  unfold wrapQueen
  cases s.queenRef <;> rfl

theorem wrapQueen_slot (s : Colony) (qpid r : Nat) :
    slotAnt (wrapQueen s qpid) r = slotAnt s r := by
  unfold slotAnt
  rw [wrapQueen_arena]

theorem wrapQueen_exit (s : Colony) (qpid r : Nat) :
    placeExit (wrapQueen s qpid) r = placeExit s r := by
  rw [placeExit_eq_exitAt, placeExit_eq_exitAt, wrapQueen_arena]

theorem wrapQueen_entrance (s : Colony) (qpid r : Nat) :
    placeEntrance (wrapQueen s qpid) r = placeEntrance s r := by
  rw [placeEntrance_eq_entranceAt, placeEntrance_eq_entranceAt,
    wrapQueen_arena]

theorem wrapQueen_ids (s : Colony) (qpid r : Nat) :
    antIdsAt (wrapQueen s qpid) r = antIdsAt s r := by
  unfold antIdsAt
  rw [wrapQueen_slot]

theorem wrapQueen_len (s : Colony) (qpid : Nat) :
    (wrapQueen s qpid).arena.length = s.arena.length := by
  rw [wrapQueen_arena]

/-- The true queen's action is exactly: wrap the queen reference, walk
back, double along exits, then the standard thrower action. -/
theorem queen_action_true (s : Colony) (qpid pick fuel : Nat)
    (p : PlaceObj) (hp : getPlace s.arena qpid = some p)
    (q : AntObj) (ha : p.ant = some q) (hinst : q.data.instanceNum = 0) :
    queen_action s qpid pick fuel =
      (thrower_action
        (doubleLoop (wrapQueen s qpid) qpid
          (some (queenWalkBack (wrapQueen s qpid) qpid fuel)) fuel)
        qpid 0 10 pick fuel, none) := by
  have h0 : ¬ q.data.instanceNum > 0 := by
    rw [hinst]
    exact Nat.lt_irrefl 0
  unfold queen_action wrapQueen
  rw [hp]
  simp only [ha, h0, if_false]

/-- One activation of the true queen: no error; every place on her walk
other than her own has its slot mapped through `doubledObj` of her
starting `doubled_ants` and id; her own slot keeps all fields except a
grown `doubled_ants` covering every visited non-self id; everything off
the walk keeps its slot; identities, arena length and the hive are
preserved. -/
theorem queen_action_spec (s : Colony) (qpid pick fuel : Nat)
    (qobj : AntObj) (hq : slotAnt s qpid = some qobj)
    (hinst : qobj.data.instanceNum = 0)
    (hu : UniqueAntIds s)
    (hnd : (queenPath s qpid fuel).Nodup) :
    (queen_action s qpid pick fuel).2 = none ∧
    (∀ pid, pid ∈ queenPath s qpid fuel → pid ≠ qpid →
      slotAnt (queen_action s qpid pick fuel).1 pid =
        (slotAnt s pid).map (doubledObj qobj.data.doubled qobj.data.id)) ∧
    (∃ dbl, slotAnt (queen_action s qpid pick fuel).1 qpid =
        some { qobj with data := { qobj.data with doubled := dbl } } ∧
      (∀ x, x ∈ qobj.data.doubled → x ∈ dbl) ∧
      (∀ x, x ∈ dbl → x ∈ qobj.data.doubled ∨
        ∃ pid, pid ∈ queenPath s qpid fuel ∧ pid ≠ qpid ∧
          x ∈ antIdsAt s pid) ∧
      (∀ pid, pid ∈ queenPath s qpid fuel → pid ≠ qpid →
        ∀ a, slotAnt s pid = some a →
        (a.data.id ≠ qobj.data.id → a.data.id ∈ dbl) ∧
        (∀ c, a.contained = some c → isContainer a.data.kind →
          c.id ≠ qobj.data.id → c.id ∈ dbl))) ∧
    (∀ r, r ≠ qpid → r ∉ queenPath s qpid fuel →
      slotAnt (queen_action s qpid pick fuel).1 r = slotAnt s r) ∧
    ((queen_action s qpid pick fuel).1.arena.length = s.arena.length) ∧
    (∀ r, antIdsAt (queen_action s qpid pick fuel).1 r = antIdsAt s r) ∧
    (queen_action s qpid pick fuel).1.hiveId = s.hiveId := by
  obtain ⟨p, hp, ha⟩ : ∃ p, getPlace s.arena qpid = some p ∧
      p.ant = some qobj := by
    unfold slotAnt at hq
    cases hg : getPlace s.arena qpid with
    | none => rw [hg] at hq; cases hq
    | some p => rw [hg] at hq; exact ⟨p, rfl, hq⟩
  rw [queen_action_true s qpid pick fuel p hp qobj ha hinst]
  have hwslot := wrapQueen_slot s qpid
  have hwexit := wrapQueen_exit s qpid
  have hwent := wrapQueen_entrance s qpid
  have hwids := wrapQueen_ids s qpid
  have hwlen := wrapQueen_len s qpid
  have hwhive := wrapQueen_hive s qpid
  have hstart : queenWalkBack (wrapQueen s qpid) qpid fuel =
      queenWalkBack s qpid fuel :=
    queenWalkBack_congr s (wrapQueen s qpid) hwent hwhive fuel qpid
  have hchain : ∀ c, exitChain (wrapQueen s qpid) c fuel =
      exitChain s c fuel :=
    fun c => exitChain_congr s (wrapQueen s qpid) hwexit fuel c
  have hq1 : slotAnt (wrapQueen s qpid) qpid = some qobj := by
    rw [hwslot qpid]
    exact hq
  have hu1 : UniqueAntIds (wrapQueen s qpid) :=
    uniqueAntIds_transport s (wrapQueen s qpid) hu hwids hwlen
  have hpatheq : exitChain (wrapQueen s qpid)
      (some (queenWalkBack (wrapQueen s qpid) qpid fuel)) fuel =
      queenPath s qpid fuel := by
    rw [hstart, hchain]
    rfl
  have hnd1 : (exitChain (wrapQueen s qpid)
      (some (queenWalkBack (wrapQueen s qpid) qpid fuel)) fuel).Nodup := by
    rw [hpatheq]
    exact hnd
  have hds := doubleLoop_spec qpid fuel (wrapQueen s qpid)
    (some (queenWalkBack (wrapQueen s qpid) qpid fuel)) qobj
    qobj.data.doubled hq1 hu1 hnd1
    (fun pid hpid hne x hx => Iff.rfl)
  rcases hds with ⟨c1, c2, ⟨dbl, c3a, c3b, c3c, c3d⟩, c4, c5, c6, c7⟩
  rw [hpatheq] at c1 c2 c3c c3d
  have hts := thrower_action_slotAnt (doubleLoop (wrapQueen s qpid) qpid
    (some (queenWalkBack (wrapQueen s qpid) qpid fuel)) fuel) qpid 0 10
    pick fuel
  refine ⟨rfl, ?_, ⟨dbl, ?_, c3b, ?_, ?_⟩, ?_, ?_, ?_, ?_⟩
  · intro pid hpid hne
    show slotAnt (thrower_action _ qpid 0 10 pick fuel) pid = _
    rw [hts pid, c1 pid hpid hne, hwslot pid]
  · show slotAnt (thrower_action _ qpid 0 10 pick fuel) qpid = _
    rw [hts qpid, c3a]
  · intro x hx
    rcases c3c x hx with h | ⟨pid, h1, h2, h3⟩
    · exact Or.inl h
    · rw [hwids pid] at h3
      exact Or.inr ⟨pid, h1, h2, h3⟩
  · intro pid hpid hne a haa
    refine c3d pid hpid hne a ?_
    rw [hwslot pid]
    exact haa
  · intro r hr hnr
    show slotAnt (thrower_action _ qpid 0 10 pick fuel) r = _
    rw [hts r]
    unfold slotAnt
    rw [c2 r hr hnr, wrapQueen_arena]
  · show (thrower_action _ qpid 0 10 pick fuel).arena.length = _
    rw [thrower_action_len, c4, hwlen]
  · intro r
    show antIdsAt (thrower_action _ qpid 0 10 pick fuel) r = _
    have hci := antIdsAt_congr_slot _ _ hts r
    rw [hci, c5 r, hwids r]
  · show (thrower_action _ qpid 0 10 pick fuel).hiveId = _
    rw [thrower_action_hive, c7, hwhive]

/-- Invariant over repeated queen activations: after any positive number
of activations, every walk place other than the queen's own holds the
image of its original slot under ONE application of `doubledObj` — the
doubling happened exactly once — the queen's own record differs only in
`doubled_ants` (which contains every visited non-self id), and the rest
of the colony's slots, identities, links, length and hive are those of
the start state. -/
theorem queenIter_inv (s : Colony) (qpid fuel : Nat) (picks : Nat → Nat)
    (qobj : AntObj) (hq : slotAnt s qpid = some qobj)
    (hinst : qobj.data.instanceNum = 0) (hu : UniqueAntIds s)
    (hnd : (queenPath s qpid fuel).Nodup) :
    ∀ n, ∃ dbl,
      (∀ pid, pid ∈ queenPath s qpid fuel → pid ≠ qpid →
        slotAnt (queenIter qpid fuel picks s (n + 1)) pid =
          (slotAnt s pid).map (doubledObj qobj.data.doubled qobj.data.id)) ∧
      (slotAnt (queenIter qpid fuel picks s (n + 1)) qpid =
        some { qobj with data := { qobj.data with doubled := dbl } }) ∧
      (∀ pid, pid ∈ queenPath s qpid fuel → pid ≠ qpid →
        ∀ a, slotAnt s pid = some a →
        (a.data.id ≠ qobj.data.id → a.data.id ∈ dbl) ∧
        (∀ c, a.contained = some c → isContainer a.data.kind →
          c.id ≠ qobj.data.id → c.id ∈ dbl)) ∧
      (∀ r, r ≠ qpid → r ∉ queenPath s qpid fuel →
        slotAnt (queenIter qpid fuel picks s (n + 1)) r = slotAnt s r) ∧
      (∀ i, exitAt (queenIter qpid fuel picks s (n + 1)).arena i =
          exitAt s.arena i ∧
        entranceAt (queenIter qpid fuel picks s (n + 1)).arena i =
          entranceAt s.arena i) ∧
      ((queenIter qpid fuel picks s (n + 1)).arena.length =
        s.arena.length) ∧
      (∀ r, antIdsAt (queenIter qpid fuel picks s (n + 1)) r =
        antIdsAt s r) ∧
      ((queenIter qpid fuel picks s (n + 1)).hiveId = s.hiveId) := by
  intro n
  induction n with
  | zero =>
    have hQ := queen_action_spec s qpid (picks 0) fuel qobj hq hinst hu hnd
    rcases hQ with ⟨_, d1, ⟨dbl, d2a, d2b, d2c, d2d⟩, d4, d5, d6, d7⟩
    exact ⟨dbl, d1, d2a, d2d, d4,
      (fun i => queen_action_links s qpid (picks 0) fuel i), d5, d6, d7⟩
  | succ n ihn =>
    rcases ihn with ⟨dbl, ia, ib, ic, id2, il, ilen, iids, ihive⟩
    have hq_n : slotAnt (queenIter qpid fuel picks s (n + 1)) qpid =
        some { qobj with data := { qobj.data with doubled := dbl } } := ib
    have hinst_n : ({ qobj with data := { qobj.data with doubled := dbl } } :
        AntObj).data.instanceNum = 0 := hinst
    have hu_n : UniqueAntIds (queenIter qpid fuel picks s (n + 1)) :=
      uniqueAntIds_transport s _ hu iids ilen
    have hpath_n : queenPath (queenIter qpid fuel picks s (n + 1)) qpid fuel =
        queenPath s qpid fuel := by
      refine queenPath_congr s _ qpid fuel ?_ ?_ ihive
      · intro i
        rw [placeExit_eq_exitAt, placeExit_eq_exitAt]
        exact (il i).1
      · intro i
        rw [placeEntrance_eq_entranceAt, placeEntrance_eq_entranceAt]
        exact (il i).2
    have hnd_n : (queenPath (queenIter qpid fuel picks s (n + 1)) qpid
        fuel).Nodup := by
      rw [hpath_n]
      exact hnd
    have hQ := queen_action_spec (queenIter qpid fuel picks s (n + 1)) qpid
      (picks (n + 1)) fuel { qobj with data := { qobj.data with doubled := dbl } }
      hq_n hinst_n hu_n hnd_n
    rcases hQ with ⟨_, d1, ⟨dbl', d2a, d2b, d2c, d2d⟩, d4, d5, d6, d7⟩
    rw [hpath_n] at d1 d2c d2d d4
    refine ⟨dbl', ?_, ?_, ?_, ?_, ?_, ?_, ?_, ?_⟩
    · intro pid hpid hne
      have hstep := d1 pid hpid hne
      rw [ia pid hpid hne] at hstep
      show slotAnt ((queen_action (queenIter qpid fuel picks s (n + 1)) qpid
        (picks (n + 1)) fuel).1) pid = _
      rw [hstep]
      cases hsa : slotAnt s pid with
      | none => rfl
      | some a =>
        have hic := ic pid hpid hne a hsa
        have h1 : a.data.id ∈ dbl ∨ a.data.id = qobj.data.id := by
          by_cases hcase : a.data.id = qobj.data.id
          · exact Or.inr hcase
          · exact Or.inl (hic.1 hcase)
        have h2 : ∀ c, a.contained = some c → isContainer a.data.kind →
            (c.id ∈ dbl ∨ c.id = qobj.data.id) := by
          intro c hc hcont
          by_cases hcase : c.id = qobj.data.id
          · exact Or.inr hcase
          · exact Or.inl (hic.2 c hc hcont hcase)
        have hidem := doubledObj_idem qobj.data.doubled dbl qobj.data.id a h1
          (fun c hc hcont => h2 c hc hcont)
        show some (doubledObj dbl qobj.data.id
            (doubledObj qobj.data.doubled qobj.data.id a)) =
          some (doubledObj qobj.data.doubled qobj.data.id a)
        rw [hidem]
    · show slotAnt ((queen_action (queenIter qpid fuel picks s (n + 1)) qpid
        (picks (n + 1)) fuel).1) qpid = _
      rw [d2a]
    · intro pid hpid hne a hsa
      have hic := ic pid hpid hne a hsa
      constructor
      · intro hcase
        exact d2b a.data.id (hic.1 hcase)
      · intro c hc hcont hcase
        exact d2b c.id (hic.2 c hc hcont hcase)
    · intro r hr hnr
      show slotAnt ((queen_action (queenIter qpid fuel picks s (n + 1)) qpid
        (picks (n + 1)) fuel).1) r = _
      rw [d4 r hr hnr, id2 r hr hnr]
    · intro i
      have hl := queen_action_links (queenIter qpid fuel picks s (n + 1)) qpid
        (picks (n + 1)) fuel i
      exact ⟨hl.1.trans (il i).1, hl.2.trans (il i).2⟩
    · show ((queen_action (queenIter qpid fuel picks s (n + 1)) qpid
        (picks (n + 1)) fuel).1).arena.length = _
      rw [d5, ilen]
    · intro r
      show antIdsAt ((queen_action (queenIter qpid fuel picks s (n + 1)) qpid
        (picks (n + 1)) fuel).1) r = _
      rw [d6 r, iids r]
    · show ((queen_action (queenIter qpid fuel picks s (n + 1)) qpid
        (picks (n + 1)) fuel).1).hiveId = _
      rw [d7, ihive]

/-- Claim C5, amended: across any number of consecutive activations the
true queen doubles the damage of every Defender encountered on her walk
other than herself exactly once — after the first activation every walk
place other than her own holds the once-doubled (`doubledObj`) image of
its original slot, including one level of contained Defender, and every
further activation leaves it at that singly-doubled value (the persistent
`doubled_ants` record blocks re-doubling); her own slot changes only in
`doubled_ants`, so her own damage is never doubled; and each activation
is exactly the reference wrap, the backward walk, the doubling walk along
exits, and a standard thrower action. -/
theorem queen_doubles_encountered_defenders_once (s : Colony)
    (qpid fuel n pick : Nat) (picks : Nat → Nat)
    (qobj : AntObj) (hq : slotAnt s qpid = some qobj)
    (hinst : qobj.data.instanceNum = 0)
    (hu : UniqueAntIds s)
    (hnd : (queenPath s qpid fuel).Nodup) :
    (∀ pid, pid ∈ queenPath s qpid fuel → pid ≠ qpid →
      slotAnt (queenIter qpid fuel picks s (n + 1)) pid =
        (slotAnt s pid).map (doubledObj qobj.data.doubled qobj.data.id)) ∧
    (∃ dbl, slotAnt (queenIter qpid fuel picks s (n + 1)) qpid =
      some { qobj with data := { qobj.data with doubled := dbl } }) ∧
    queen_action s qpid pick fuel =
      (thrower_action
        (doubleLoop (wrapQueen s qpid) qpid
          (some (queenWalkBack (wrapQueen s qpid) qpid fuel)) fuel)
        qpid 0 10 pick fuel, none) := by
  obtain ⟨p, hp, ha⟩ : ∃ p, getPlace s.arena qpid = some p ∧
      p.ant = some qobj := by
    unfold slotAnt at hq
    cases hg : getPlace s.arena qpid with
    | none => rw [hg] at hq; cases hq
    | some p => rw [hg] at hq; exact ⟨p, rfl, hq⟩
  rcases queenIter_inv s qpid fuel picks qobj hq hinst hu hnd n with
    ⟨dbl, ia, ib, _⟩
  exact ⟨ia, ⟨dbl, ib⟩,
    queen_action_true s qpid pick fuel p hp qobj ha hinst⟩

/-- A colony with the true Queen (instance 0, object id 0) at
`tunnel_0_1` and Throwers (ids 1 and 2) at `tunnel_0_0` and
`tunnel_0_2`. -/
def c5Colony : Colony :=
  (deploy_ant (deploy_ant (deploy_ant (make_colony [] 3 1 30 queenRegistry)
    (PName.tunnel 0 1) "Queen").1
    (PName.tunnel 0 0) "Thrower").1
    (PName.tunnel 0 2) "Thrower").1

/-- The true queen object sitting in `c5Colony` at place 3. -/
def c5Queen : AntObj :=
  { data := { id := 0, kind := AntKind.queen, armor := 1, damage := 1,
              instanceNum := 0, doubled := [] },
    contained := none }

/-- Counterexample to claim C5 as stated: the queen's own place (3) lies
on her walk and she is the Defender occupying it, yet her activation
leaves her damage at 1 — not every Defender encountered is doubled — and
on the second activation the Thrower at place 2, though encountered
again, keeps damage 2 instead of being doubled once more, so the
doubling is once per game, not once per activation. -/
theorem queen_own_damage_not_doubled :
    3 ∈ queenPath c5Colony 3 10 ∧
    (slotAnt c5Colony 3).map (fun q => q.data.damage) = some 1 ∧
    (slotAnt (queenIter 3 10 (fun _ => 0) c5Colony 1) 3).map
      (fun q => q.data.damage) = some 1 ∧
    (slotAnt (queenIter 3 10 (fun _ => 0) c5Colony 1) 2).map
      (fun q => q.data.damage) = some 2 ∧
    (slotAnt (queenIter 3 10 (fun _ => 0) c5Colony 2) 2).map
      (fun q => q.data.damage) = some 2 := by
  decide

theorem queen_doubles_encountered_defenders_once_witness :
    (slotAnt c5Colony 3 = some c5Queen ∧
     c5Queen.data.instanceNum = 0 ∧
     UniqueAntIds c5Colony ∧
     (queenPath c5Colony 3 10).Nodup) ∧
    ((∀ pid, pid ∈ queenPath c5Colony 3 10 → pid ≠ 3 →
      slotAnt (queenIter 3 10 (fun _ => 0) c5Colony (1 + 1)) pid =
        (slotAnt c5Colony pid).map
          (doubledObj c5Queen.data.doubled c5Queen.data.id)) ∧
    (∃ dbl, slotAnt (queenIter 3 10 (fun _ => 0) c5Colony (1 + 1)) 3 =
      some { c5Queen with data := { c5Queen.data with doubled := dbl } }) ∧
    queen_action c5Colony 3 0 10 =
      (thrower_action
        (doubleLoop (wrapQueen c5Colony 3) 3
          (some (queenWalkBack (wrapQueen c5Colony 3) 3 10)) 10)
        3 0 10 0 10, none)) :=
  ⟨⟨by decide, by decide, by decide, by decide⟩,
   queen_doubles_encountered_defenders_once c5Colony 3 10 1 0 (fun _ => 0)
     c5Queen (by decide) (by decide) (by decide) (by decide)⟩

end Ants
